import Mathlib

/-!
Shallow embedding of the `ascap-finder-pro` repository's core logic, translated from
`supabase/functions/ascap-search/index.ts`, `supabase/functions/send-splitsheet/index.ts`,
and `src/lib/export.ts`.

Modelling conventions:
* JavaScript strings are modelled as Lean `String` (a list of characters); `s.length`
  counts characters (the source data is ASCII, where this agrees with UTF-16 length).
* `String.prototype.toUpperCase` / `toLowerCase` are modelled character-by-character on
  the basic-latin range (the only range the scraped repertory data uses).
* JavaScript regular expressions are embedded as data (`RE`) together with a fuel-bounded
  backtracking matcher `mrun` implementing the ECMAScript leftmost/greedy/lazy match
  order, so each pattern of the source can be transcribed literally.
* Network fetches, the JSON body parse, and the mail provider are external collaborators;
  they are modelled as explicit inputs (`FetchEnv`, oracle strings) and outputs
  (dispatched email list, network-call trace).
-/

/-- ECMAScript `\s` (WhiteSpace ∪ LineTerminator), used by `trim`, `split(/\s+/)`
and the `\s` character class, by code point: TAB LF VT FF CR SP NBSP OGHAM,
U+2000–U+200A, LS, PS, NNBSP, MMSP, IDSP, BOM. -/
def jsIsSpace (c : Char) : Bool :=
  decide (c.toNat = 32 ∨ c.toNat = 9 ∨ c.toNat = 10 ∨ c.toNat = 11 ∨ c.toNat = 12 ∨
    c.toNat = 13 ∨ c.toNat = 160 ∨ c.toNat = 5760 ∨
    (8192 ≤ c.toNat ∧ c.toNat ≤ 8202) ∨ c.toNat = 8232 ∨ c.toNat = 8233 ∨
    c.toNat = 8239 ∨ c.toNat = 8287 ∨ c.toNat = 12288 ∨ c.toNat = 65279)

/-- Is `c` one of `a`–`z`? -/
def isLowerAZ (c : Char) : Bool :=
  decide (97 ≤ c.toNat ∧ c.toNat ≤ 122)

/-- Is `c` one of `A`–`Z`? -/
def isUpperAZ (c : Char) : Bool :=
  decide (65 ≤ c.toNat ∧ c.toNat ≤ 90)

/-- `String.prototype.toUpperCase`, restricted to the basic-latin letters that the
scraped data contains. -/
def jsToUpperChar (c : Char) : Char :=
  if isLowerAZ c then Char.ofNat (c.toNat - 32) else c

/-- `String.prototype.toLowerCase`, restricted to the basic-latin letters. -/
def jsToLowerChar (c : Char) : Char :=
  if isUpperAZ c then Char.ofNat (c.toNat + 32) else c

/-- Lower-case a whole string (`s.toLowerCase()`). -/
def jsToLowerStr (s : String) : String :=
  ⟨s.data.map jsToLowerChar⟩

/-- Auxiliary scan for `collapseL`: the flag records whether the previous character
was whitespace (in which case further whitespace extends the already-replaced run). -/
def collapseAux : Bool → List Char → List Char
  | _, [] => []
  | prevSpace, c :: rest =>
    if jsIsSpace c then
      if prevSpace then collapseAux true rest else ' ' :: collapseAux true rest
    else c :: collapseAux false rest

/-- `s.replace(/\s+/g, ' ')`: every maximal run of whitespace becomes a single space. -/
def collapseL (l : List Char) : List Char :=
  collapseAux false l

/-- `s.trim()`: drop leading and trailing whitespace. -/
def trimL (l : List Char) : List Char :=
  (((l.dropWhile jsIsSpace).reverse.dropWhile jsIsSpace)).reverse

/-- `s.split(' ')`: split on every single space character, keeping empty pieces. -/
def splitSp : List Char → List (List Char)
  | [] => [[]]
  | c :: rest =>
    match splitSp rest with
    | [] => [[c]]
    | w :: ws => if c = ' ' then [] :: w :: ws else (c :: w) :: ws

/-- Split a character list on every occurrence of `sep`, keeping empty pieces
(`String.prototype.split` with a single-character separator). -/
def splitChar (sep : Char) : List Char → List (List Char)
  | [] => [[]]
  | c :: rest =>
    match splitChar sep rest with
    | [] => [[c]]
    | w :: ws => if c == sep then [] :: w :: ws else (c :: w) :: ws

/-- `s.split('\n')` as strings. -/
def splitLines (s : String) : List String :=
  (splitChar '\n' s.data).map (fun l => ⟨l⟩)

/-- `word.charAt(0).toUpperCase() + word.slice(1).toLowerCase()`. -/
def capL : List Char → List Char
  | [] => []
  | c :: rest => jsToUpperChar c :: rest.map jsToLowerChar

/-- `Array.prototype.join(sep)` on character lists. -/
def joinSp : List (List Char) → List Char
  | [] => []
  | [w] => w
  | w :: ws => w ++ ' ' :: joinSp ws

/-- The character-list pipeline of `formatName`. -/
def fmtL (l : List Char) : List Char :=
  joinSp ((splitSp (trimL (collapseL l))).map capL)

/-- `formatName` from `ascap-search/index.ts`: collapse whitespace, trim, title-case
each space-separated word, re-join with single spaces. -/
def formatName (s : String) : String :=
  ⟨fmtL s.data⟩

/-- `Array.prototype.join(sep)` on strings. -/
def joinWith (sep : String) : List String → String
  | [] => ""
  | [x] => x
  | x :: xs => x ++ sep ++ joinWith sep xs

/-- `s.trim()` on strings. -/
def jsTrimStr (s : String) : String :=
  ⟨trimL s.data⟩

/-- Decidable `List.isPrefixOf` specialised to characters. -/
def listPre : List Char → List Char → Bool
  | [], _ => true
  | _ :: _, [] => false
  | a :: as, b :: bs => a == b && listPre as bs

/-- `hay.includes(needle)`: substring containment, true for the empty needle. -/
def containsSub (needle : List Char) : List Char → Bool
  | [] => needle.isEmpty
  | c :: rest => listPre needle (c :: rest) || containsSub needle rest

/-- `hay.includes(needle)` on strings. -/
def containsSubStr (hay needle : String) : Bool :=
  containsSub needle.data hay.data

/-- `s.split(/\s+/).filter(w => w.length > 0)`: the maximal non-whitespace runs. -/
def wsTokensAux : List Char → List Char → List (List Char)
  | cur, [] => if cur.isEmpty then [] else [cur.reverse]
  | cur, c :: rest =>
    if jsIsSpace c then
      if cur.isEmpty then wsTokensAux [] rest else cur.reverse :: wsTokensAux [] rest
    else wsTokensAux (c :: cur) rest

/-- Number of whitespace-separated tokens of a string. -/
def numTokens (s : String) : Nat :=
  (wsTokensAux [] s.data).length

/-! ### A small backtracking regular-expression engine (ECMAScript semantics) -/

/-- Character classes appearing in the source's regular expressions. -/
inductive CC where
  | one (c : Char)
  | rng (lo hi : Char)
  | space
  | dot
  | all
  | un (a b : CC)
  | nn (a : CC)
deriving Repr

/-- Raw membership of a character in a class. -/
def ccBase : CC → Char → Bool
  | .one c, x => x == c
  | .rng lo hi, x => lo ≤ x && x ≤ hi
  | .space, x => jsIsSpace x
  | .dot, x => !(x == '\n' || x == '\r' || x.toNat == 8232 || x.toNat == 8233)
  | .all, _ => true
  | .un a b, x => ccBase a x || ccBase b x
  | .nn a, x => !ccBase a x

/-- Swap the case of a basic-latin letter (used to honour the `i` flag). -/
def swapCase (c : Char) : Char :=
  if c.isLower then jsToUpperChar c else if c.isUpper then jsToLowerChar c else c

/-- Class membership, honouring the case-insensitive flag. -/
def ccMatch (ci : Bool) (cc : CC) (c : Char) : Bool :=
  ccBase cc c || (ci && ccBase cc (swapCase c))

/-- ECMAScript `\w` (for `\b`). -/
def isWordChar (c : Char) : Bool :=
  c.isAlpha || c.isDigit || c == '_'

/-- Regular expressions as data.  `rep a mn mx lazy` covers `*`, `+`, `?` and `{m,n}`. -/
inductive RE where
  | eps
  | cls (cc : CC)
  | seq (a b : RE)
  | alt (a b : RE)
  | rep (a : RE) (mn : Nat) (mx : Option Nat) (lzy : Bool)
  | grp (idx : Nat) (a : RE)
  | wb
  | bos
  | eos
deriving Repr

/-- Matcher state: the character before the current position (for `^` and `\b`),
the remaining input, and the capture groups recorded so far. -/
structure MSt where
  prev : Option Char
  rest : List Char
  caps : List (Nat × List Char)

/-- Is the current position a word boundary? -/
def atBoundary (st : MSt) : Bool :=
  (match st.prev with | some c => isWordChar c | none => false) !=
  (match st.rest with | c :: _ => isWordChar c | [] => false)

/-- Decrement an optional repetition bound. -/
def decMax : Option Nat → Option Nat
  | none => none
  | some n => some (n - 1)

/-- The backtracking matcher, in continuation-passing style.  `fuel` bounds the
recursion depth; alternatives are tried in ECMAScript order (left alternative first,
greedy repetitions longest-first, lazy repetitions shortest-first, zero-length
repetition iterations cut off). -/
def mrun (ci : Bool) : Nat → RE → MSt → (MSt → Option MSt) → Option MSt
  | 0, _, _, _ => none
  | fuel + 1, re, st, k =>
    match re with
    | .eps => k st
    | .cls cc =>
      match st.rest with
      | [] => none
      | c :: cs => if ccMatch ci cc c then k ⟨some c, cs, st.caps⟩ else none
    | .seq a b => mrun ci fuel a st (fun st1 => mrun ci fuel b st1 k)
    | .alt a b =>
      match mrun ci fuel a st k with
      | some r => some r
      | none => mrun ci fuel b st k
    | .grp i a =>
      mrun ci fuel a st (fun st1 =>
        k ⟨st1.prev, st1.rest, (i, st.rest.take (st.rest.length - st1.rest.length)) :: st1.caps⟩)
    | .rep a mn mx lzy =>
      match mx with
      | some 0 => k st
      | _ =>
        if 0 < mn then
          mrun ci fuel a st (fun st1 => mrun ci fuel (.rep a (mn - 1) (decMax mx) lzy) st1 k)
        else
          let once : Unit → Option MSt := fun _ =>
            mrun ci fuel a st (fun st1 =>
              if st1.rest.length == st.rest.length then none
              else mrun ci fuel (.rep a 0 (decMax mx) lzy) st1 k)
          if lzy then
            match k st with
            | some r => some r
            | none => once ()
          else
            match once () with
            | some r => some r
            | none => k st
    | .wb => if atBoundary st then k st else none
    | .bos => match st.prev with | none => k st | some _ => none
    | .eos => match st.rest with | [] => k st | _ :: _ => none

/-- Fuel that is ample for the source's patterns on the inputs we evaluate. -/
def fuelFor (l : List Char) : Nat :=
  4000 + 200 * l.length

/-- Try to match `re` anchored at the current position. -/
def tryMatchAt (ci : Bool) (re : RE) (prev : Option Char) (s : List Char) : Option MSt :=
  mrun ci (fuelFor s + 1000) re ⟨prev, s, []⟩ some

/-- Leftmost search: returns `(before, matched, caps, prevAtEnd, rest)` of the first
match, scanning start positions left to right as `RegExp.prototype.exec` does. -/
def findSplitAux (ci : Bool) (re : RE) :
    List Char → Option Char → List Char →
    Option (List Char × List Char × List (Nat × List Char) × Option Char × List Char)
  | acc, prev, s =>
    match tryMatchAt ci re prev s with
    | some st =>
      some (acc.reverse, s.take (s.length - st.rest.length), st.caps, st.prev, st.rest)
    | none =>
      match s with
      | [] => none
      | c :: cs => findSplitAux ci re (c :: acc) (some c) cs

/-- Capture group `i` as a string (empty when absent, matching the guarded uses in
the source). -/
def capStr (i : Nat) (caps : List (Nat × List Char)) : String :=
  match caps.find? (fun p => p.1 == i) with
  | some p => ⟨p.2⟩
  | none => ""

/-- `s.match(re)` (no `g` flag): capture group 1 of the first match. -/
def jsFirstCap (ci : Bool) (re : RE) (s : String) : Option String :=
  match findSplitAux ci re [] none s.data with
  | some (_, _, caps, _, _) => some (capStr 1 caps)
  | none => none

/-- `re.test(s)`-style check: does `re` match anywhere in `s`? -/
def jsTest (ci : Bool) (re : RE) (s : String) : Bool :=
  (findSplitAux ci re [] none s.data).isSome

/-- All matches of a global regex: repeated `exec`, resuming after each match
(advancing one character after a zero-length match). -/
def allMatchesAux (ci : Bool) (re : RE) :
    Nat → Option Char → List Char → List (List (Nat × List Char))
  | 0, _, _ => []
  | n + 1, prev, s =>
    match findSplitAux ci re [] prev s with
    | none => []
    | some (_, matched, caps, prevEnd, rest) =>
      if matched.isEmpty then
        match rest with
        | [] => [caps]
        | c :: cs => caps :: allMatchesAux ci re n (some c) cs
      else caps :: allMatchesAux ci re n prevEnd rest

/-- `(name, number)` capture pairs of every match of a two-group global regex. -/
def matchPairs (ci : Bool) (re : RE) (s : String) : List (String × String) :=
  (allMatchesAux ci re (s.data.length + 1) none s.data).map
    (fun caps => (capStr 1 caps, capStr 2 caps))

/-- `s.replace(re, '')` (no `g` flag): delete the first match. -/
def replaceFirstStr (ci : Bool) (re : RE) (s : String) : String :=
  match findSplitAux ci re [] none s.data with
  | some (before, _, _, _, rest) => ⟨before ++ rest⟩
  | none => s

/-! ### Regex constructors and the source's patterns, transcribed literally -/

/-- A single literal character. -/
def rOne (c : Char) : RE := .cls (.one c)

/-- A literal string (each character matched in order; `i` handled by the matcher). -/
def rStrOf (s : String) : RE := s.data.foldr (fun c r => RE.seq (rOne c) r) .eps

/-- Sequence a list of regexes. -/
def rSeqOf (l : List RE) : RE := l.foldr .seq .eps

/-- Alternation in ECMAScript order. -/
def rAltOf : List RE → RE
  | [] => .eps
  | [r] => r
  | r :: rs => .alt r (rAltOf rs)

/-- Greedy `*`. -/
def rStar (r : RE) : RE := .rep r 0 none false

/-- Greedy `+`. -/
def rPlus (r : RE) : RE := .rep r 1 none false

/-- Greedy `?`. -/
def rOpt (r : RE) : RE := .rep r 0 (some 1) false

/-- Lazy `+?`. -/
def rLazyPlus (r : RE) : RE := .rep r 1 none true

/-- Lazy `*?`. -/
def rLazyStar (r : RE) : RE := .rep r 0 none true

/-- Bounded `{a,b}` (greedy). -/
def rBetween (r : RE) (a b : Nat) : RE := .rep r a (some b) false

/-- Union of a list of character classes. -/
def ccList : List CC → CC
  | [] => .nn .all
  | c :: cs => cs.foldl .un c

def ccUpper : CC := .rng 'A' 'Z'
def ccLower : CC := .rng 'a' 'z'
def ccAlpha : CC := .un ccUpper ccLower
def ccDigit : CC := .rng '0' '9'

/-- `[A-Za-z\s,.'()-]` (also written `[a-zA-Z\s,.'()-]` in the source). -/
def ccNameChars : CC :=
  ccList [ccUpper, ccLower, .space, .one ',', .one '.', .one '\'', .one '(', .one ')', .one '-']

def wsStar : RE := rStar (.cls .space)
def wsPlus : RE := rPlus (.cls .space)

/-- `[A-Z][a-zA-Z]+`. -/
def nameHead : RE := .seq (.cls ccUpper) (rPlus (.cls ccAlpha))

/-- `(?:\s+[A-Z][a-zA-Z]*\.?)`. -/
def nameTailWord : RE := rSeqOf [wsPlus, .cls ccUpper, rStar (.cls ccAlpha), rOpt (rOne '.')]

/-- `(?:Jr\.|Sr\.|III?|IV|V)`. -/
def nameSfx : RE :=
  rAltOf [rStrOf "Jr.", rStrOf "Sr.", .seq (rStrOf "II") (rOpt (rOne 'I')), rStrOf "IV",
          rStrOf "V"]

/-- `[A-Z][a-zA-Z]+(?:\s+[A-Z][a-zA-Z]*\.?)+(?:\s+(?:Jr\.|Sr\.|III?|IV|V))?`. -/
def reNameStrict : RE := rSeqOf [nameHead, rPlus nameTailWord, rOpt (.seq wsPlus nameSfx)]

/-- `[A-Z][a-zA-Z]+(?:\s+[A-Z][a-zA-Z]*\.?)+(?:\s+(?:Jr\.|Sr\.|III?|IV|V)?)?`. -/
def reNameLoose : RE := rSeqOf [nameHead, rPlus nameTailWord, rOpt (.seq wsPlus (rOpt nameSfx))]

/-- `[A-Z][a-zA-Z]+\s+[A-Z][a-zA-Z]+(?:\s+[A-Z][a-zA-Z]*\.?)*(?:\s+(?:Jr\.|Sr\.|III?|IV|V)?)?`. -/
def reNameBornFree : RE :=
  rSeqOf [nameHead, wsPlus, nameHead, rStar nameTailWord, rOpt (.seq wsPlus (rOpt nameSfx))]

/-- `/\|\s*Born\s*\|\s*(NAME)\s*(?:<br>|\||\()/i` with NAME strict. -/
def reTable1 : RE :=
  rSeqOf [rOne '|', wsStar, rStrOf "Born", wsStar, rOne '|', wsStar, .grp 1 reNameStrict,
          wsStar, rAltOf [rStrOf "<br>", rOne '|', rOne '(']]

/-- `/Born\s*\|\s*(NAME)\s*(?:<br>|\||\()/i` with NAME strict. -/
def reTable2 : RE :=
  rSeqOf [rStrOf "Born", wsStar, rOne '|', wsStar, .grp 1 reNameStrict, wsStar,
          rAltOf [rStrOf "<br>", rOne '|', rOne '(']]

/-- `/\bBorn[:\s]+(NAME)/i` with NAME loose. -/
def reBorn1 : RE :=
  rSeqOf [.wb, rStrOf "Born", rPlus (.cls (ccList [.one ':', .space])), .grp 1 reNameLoose]

/-- `/\bborn\s+(NAME)/i` with the free-text name shape. -/
def reBorn2 : RE := rSeqOf [.wb, rStrOf "born", wsPlus, .grp 1 reNameBornFree]

/-- `new RegExp(stageNameEscaped + "[^(]*\\(born\\s+(NAME)", 'i')`: the escaped stage
name matches itself literally. -/
def reIntro1 (stageName : String) : RE :=
  rSeqOf [rStrOf stageName, rStar (.cls (.nn (.one '('))), rOne '(', rStrOf "born", wsPlus,
          .grp 1 reNameLoose]

/-- `/^[*\s]*(NAME)[*\s]*,?\s*(?:\(|known|better known|professionally)/i`. -/
def reIntro2 : RE :=
  rSeqOf [.bos, rStar (.cls (ccList [.one '*', .space])), .grp 1 reNameLoose,
          rStar (.cls (ccList [.one '*', .space])), rOpt (rOne ','), wsStar,
          rAltOf [rOne '(', rStrOf "known", rStrOf "better known", rStrOf "professionally"]]

/-- `/birth\s*name[:\s]+(NAME)/i`. -/
def reBirthName : RE :=
  rSeqOf [rStrOf "birth", wsStar, rStrOf "name", rPlus (.cls (ccList [.one ':', .space])),
          .grp 1 reNameLoose]

/-- Cleanup `/\s*\(?\d{1,2}[,\s]+\d{4}\)?.*$/i`. -/
def reDate1 : RE :=
  rSeqOf [wsStar, rOpt (rOne '('), rBetween (.cls ccDigit) 1 2,
          rPlus (.cls (ccList [.one ',', .space])), rBetween (.cls ccDigit) 4 4,
          rOpt (rOne ')'), rStar (.cls .dot), .eos]

/-- Cleanup `/\s*\d{4}.*$/i`. -/
def reDate2 : RE := rSeqOf [wsStar, rBetween (.cls ccDigit) 4 4, rStar (.cls .dot), .eos]

/-- Cleanup `/[,;]$/`. -/
def reTrailPunct : RE := .seq (.cls (ccList [.one ',', .one ';'])) .eos

/-- `/<tr[^>]*>[\s\S]*?<td[^>]*>([^<]+)<\/td>[\s\S]*?<td[^>]*>(\d{9,11})<\/td>[\s\S]*?<\/tr>/gi`. -/
def reHtmlRow : RE :=
  rSeqOf [rStrOf "<tr", rStar (.cls (.nn (.one '>'))), rOne '>', rLazyStar (.cls .all),
          rStrOf "<td", rStar (.cls (.nn (.one '>'))), rOne '>',
          .grp 1 (rPlus (.cls (.nn (.one '<')))), rStrOf "</td>", rLazyStar (.cls .all),
          rStrOf "<td", rStar (.cls (.nn (.one '>'))), rOne '>',
          .grp 2 (rBetween (.cls ccDigit) 9 11), rStrOf "</td>", rLazyStar (.cls .all),
          rStrOf "</tr>"]

/-- `/([A-Z][A-Za-z\s,.'()-]+?)\s*[|\-–]\s*(\d{9,11})/g`. -/
def reMdNameIpi : RE :=
  rSeqOf [.grp 1 (.seq (.cls ccUpper) (rLazyPlus (.cls ccNameChars))), wsStar,
          .cls (ccList [.one '|', .one '-', .one '–']), wsStar,
          .grp 2 (rBetween (.cls ccDigit) 9 11)]

/-- `/\|\s*([^|]+?)\s*\|\s*(\d{9,11})\s*\|/g`. -/
def reMdTable : RE :=
  rSeqOf [rOne '|', wsStar, .grp 1 (rLazyPlus (.cls (.nn (.one '|')))), wsStar, rOne '|',
          wsStar, .grp 2 (rBetween (.cls ccDigit) 9 11), wsStar, rOne '|']

/-- `/([A-Z][A-Za-z\s,.'()-]+?)\s*IPI[:#\s]*(\d{9,11})/gi`. -/
def reBmiIpi : RE :=
  rSeqOf [.grp 1 (.seq (.cls ccUpper) (rLazyPlus (.cls ccNameChars))), wsStar, rStrOf "IPI",
          rStar (.cls (ccList [.one ':', .one '#', .space])),
          .grp 2 (rBetween (.cls ccDigit) 9 11)]

/-- `/(\d{9,11})/` applied to a single line. -/
def reIpiRun : RE := .grp 1 (rBetween (.cls ccDigit) 9 11)

/-- `/([A-Z][a-zA-Z\s,.'()-]{2,50})/`. -/
def reLineName : RE := .grp 1 (.seq (.cls ccUpper) (rBetween (.cls ccNameChars) 2 50))

/-- `/^\d+$/`. -/
def reAllDigits : RE := rSeqOf [.bos, rPlus (.cls ccDigit), .eos]

/-- `/^IPI/i`. -/
def reIpiLabelStart : RE := .seq .bos (rStrOf "IPI")

/-- `/^\d/`. -/
def reDigitStart : RE := .seq .bos (.cls ccDigit)

/-! ### The pattern-extraction engine (`parseASCAPResults` / `parseBMIResults`) -/

/-- A record produced by extraction (`SearchResult` of the source; `pro` is the
repertory source tag). -/
structure SearchResult where
  name : String
  ipiNumber : String
  type : String
  pro : String
deriving Repr, DecidableEq

/-- An entry of the script-extracted (`jsExtracted`) list. -/
structure JsItem where
  name : String
  ipi : String
deriving Repr, DecidableEq

/-- The shared push-if-unseen loop shape of every extraction stage: fold the
candidates, appending a record and its identifying number exactly when the stage's
condition (which includes the `seen` check) holds. -/
def dedupPush (ok : String → String → List String → Bool)
    (mk : String → String → SearchResult)
    (cands : List (String × String)) (acc : List SearchResult × List String) :
    List SearchResult × List String :=
  cands.foldl (fun a c =>
    if ok c.1 c.2 a.2 then (a.1 ++ [mk c.1 c.2], a.2 ++ [c.2]) else a) acc

/-- ASCAP record constructor (name passes through `formatName`). -/
def ascapMk (searchType : String) (n i : String) : SearchResult :=
  ⟨formatName n, i, searchType, "ASCAP"⟩

/-- BMI record constructor. -/
def bmiMk (searchType : String) (n i : String) : SearchResult :=
  ⟨formatName n, i, searchType, "BMI"⟩

/-- Stage-1 condition: `item.ipi && item.name && !seen.has(item.ipi)`. -/
def jsOk (n i : String) (seen : List String) : Bool :=
  i != "" && n != "" && !seen.contains i

/-- Stage 1: fold the script-extracted entries. -/
def scriptStage (mk : String → String → SearchResult) (js : List JsItem) :
    List SearchResult × List String :=
  dedupPush jsOk mk (js.map (fun it => (it.name, it.ipi))) ([], [])

/-- ASCAP html-row stage condition. -/
def ascapOkHtml (n i : String) (seen : List String) : Bool :=
  !seen.contains i && decide (1 < n.length) && decide (n.length < 100) &&
  !jsTest false reAllDigits n

/-- ASCAP markdown name-delimiter stage condition (no digits-only / IPI-label check). -/
def ascapOkMd (n i : String) (seen : List String) : Bool :=
  !seen.contains i && decide (1 < n.length) && decide (n.length < 100)

/-- ASCAP markdown pipe-table stage condition. -/
def ascapOkTable (n i : String) (seen : List String) : Bool :=
  !seen.contains i && decide (1 < n.length) && decide (n.length < 100) &&
  !jsTest false reAllDigits n && !jsTest true reIpiLabelStart n

/-- Fallback stage push condition (the name checks happen while building the
candidate). -/
def fallbackOk (n i : String) (seen : List String) : Bool :=
  !seen.contains i

/-- `match[1].trim()` applied to each candidate name. -/
def trimCands (l : List (String × String)) : List (String × String) :=
  l.map (fun p => (jsTrimStr p.1, p.2))

/-- Name taken from the previous line in the fallback stage. -/
def fallbackPrevName : Option String → String
  | none => ""
  | some prevLine =>
    match jsFirstCap false reLineName prevLine with
    | some n => if jsTest false reDigitStart n then "" else jsTrimStr n
    | none => ""

/-- One line of the fallback stage: a 9–11 digit run plus a capitalized span from
this or the previous line, subject to the length guards. -/
def lineCand (p : String × Option String) : Option (String × String) :=
  match jsFirstCap false reIpiRun p.1 with
  | none => none
  | some ipi =>
    let name :=
      match jsFirstCap false reLineName p.1 with
      | some n => if jsTest false reDigitStart n then fallbackPrevName p.2 else jsTrimStr n
      | none => fallbackPrevName p.2
    if name != "" && decide (2 < name.length) && decide (name.length < 100) then
      some (name, ipi)
    else none

/-- Pair each line with its predecessor. -/
def withPrev (l : List String) : List (String × Option String) :=
  l.zip (none :: l.map some)

/-- All fallback-stage candidates of a markdown text. -/
def fallbackCands (markdown : String) : List (String × String) :=
  (withPrev (splitLines markdown)).filterMap lineCand

/-- `parseASCAPResults` of the source: script stage short-circuit, then html rows,
markdown delimiter pairs, markdown pipe table, then the line-proximity fallback,
capped at 50. -/
def parseASCAPResults (markdown html searchType : String) (jsExtracted : List JsItem) :
    List SearchResult :=
  let s1 := scriptStage (ascapMk searchType) jsExtracted
  if 0 < s1.1.length then s1.1.take 50
  else
    let s2 := dedupPush ascapOkHtml (ascapMk searchType)
      (trimCands (matchPairs true reHtmlRow html)) s1
    let s3 := dedupPush ascapOkMd (ascapMk searchType)
      (trimCands (matchPairs false reMdNameIpi markdown)) s2
    let s4 := dedupPush ascapOkTable (ascapMk searchType)
      (trimCands (matchPairs false reMdTable markdown)) s3
    let s5 :=
      if s4.1.length == 0 then
        dedupPush fallbackOk (ascapMk searchType) (fallbackCands markdown) s4
      else s4
    s5.1.take 50

/-- BMI `Name IPI: digits` stage condition. -/
def bmiOkIpi (n i : String) (seen : List String) : Bool :=
  !seen.contains i && decide (2 < n.length) && decide (n.length < 80) &&
  !jsTest false reAllDigits n

/-- BMI pipe-table stage condition. -/
def bmiOkTable (n i : String) (seen : List String) : Bool :=
  !seen.contains i && decide (2 < n.length) && decide (n.length < 80) &&
  !jsTest false reAllDigits n && !jsTest true reIpiLabelStart n

/-- `parseBMIResults` of the source: script stage short-circuit, then the markdown
`IPI:` pattern and the pipe table, capped at 50.  (The `html` argument is unused,
exactly as in the source.) -/
def parseBMIResults (markdown html searchType : String) (jsExtracted : List JsItem) :
    List SearchResult :=
  let s1 := scriptStage (bmiMk searchType) jsExtracted
  if 0 < s1.1.length then s1.1.take 50
  else
    let s2 := dedupPush bmiOkIpi (bmiMk searchType)
      (trimCands (matchPairs true reBmiIpi markdown)) s1
    let s3 := dedupPush bmiOkTable (bmiMk searchType)
      (trimCands (matchPairs false reMdTable markdown)) s2
    s3.1.take 50

/-! ### The Real-Name Resolver (`extractRealNameFromWikipedia`) -/

/-- Cleanup chain of the table/born stages: trim, strip a trailing date
(`/\s*\(?\d{1,2}[,\s]+\d{4}\)?.*$/i` then `/\s*\d{4}.*$/i`), strip trailing `,`/`;`. -/
def cleanupDated (s : String) : String :=
  let a := jsTrimStr s
  let b := jsTrimStr (replaceFirstStr true reDate1 a)
  let c := jsTrimStr (replaceFirstStr true reDate2 b)
  jsTrimStr (replaceFirstStr false reTrailPunct c)

/-- Cleanup of the intro stage: trim, strip trailing `,`/`;`, trim. -/
def cleanupIntro (s : String) : String :=
  jsTrimStr (replaceFirstStr false reTrailPunct (jsTrimStr s))

/-- Cleanup of the birth-name stage: trim, strip trailing `,`/`;` (no final trim). -/
def cleanupBirth (s : String) : String :=
  replaceFirstStr false reTrailPunct (jsTrimStr s)

/-- The validation used by the table, born and intro stages: at least two tokens,
does not contain the lower-cased stage name, length strictly between 5 and 60. -/
def validStrict (stageNameLower : String) (nm : String) : Bool :=
  decide (2 ≤ numTokens nm) && !containsSubStr (jsToLowerStr nm) stageNameLower &&
  decide (5 < nm.length) && decide (nm.length < 60)

/-- The validation used by the birth-name stage: at least two tokens and not
containing the lower-cased stage name — no length bounds. -/
def validBirth (stageNameLower : String) (nm : String) : Bool :=
  decide (2 ≤ numTokens nm) && !containsSubStr (jsToLowerStr nm) stageNameLower

/-- One `if (match && match[1]) { clean; if (valid) return; }` block of the source. -/
def tryPattern (ci : Bool) (re : RE) (cleanup : String → String) (valid : String → Bool)
    (input : String) : Option String :=
  match jsFirstCap ci re input with
  | none => none
  | some cap =>
    if cap == "" then none
    else
      let nm := cleanup cap
      if valid nm then some nm else none

/-- Stage 1: the two infobox table patterns. -/
def tableStage (snl md : String) : Option String :=
  match tryPattern true reTable1 cleanupDated (validStrict snl) md with
  | some r => some r
  | none => tryPattern true reTable2 cleanupDated (validStrict snl) md

/-- Stage 2: the two free-text `Born` patterns. -/
def bornStage (snl md : String) : Option String :=
  match tryPattern true reBorn1 cleanupDated (validStrict snl) md with
  | some r => some r
  | none => tryPattern true reBorn2 cleanupDated (validStrict snl) md

/-- `wikiMarkdown.split('\n').slice(0, 30).join(' ')`. -/
def firstParagraphOf (md : String) : String :=
  joinWith " " ((splitLines md).take 30)

/-- Stage 3: the two lead-sentence patterns, applied to the first paragraph. -/
def introStage (stageName snl md : String) : Option String :=
  let fp := firstParagraphOf md
  match tryPattern true (reIntro1 stageName) cleanupIntro (validStrict snl) fp with
  | some r => some r
  | none => tryPattern true reIntro2 cleanupIntro (validStrict snl) fp

/-- Stage 4: the explicit `birth name:` pattern (weaker validation). -/
def birthStage (snl md : String) : Option String :=
  tryPattern true reBirthName cleanupBirth (validBirth snl) md

/-- Stages 1–3 of the resolver in their precedence order. -/
def firstThreeStages (stageName md : String) : Option String :=
  let snl := jsToLowerStr stageName
  match tableStage snl md with
  | some r => some r
  | none =>
    match bornStage snl md with
    | some r => some r
    | none => introStage stageName snl md

/-- `extractRealNameFromWikipedia` of the source: the four stage groups in
precedence order, `none` when every pattern misses. -/
def extractRealNameFromWikipedia (stageName wikiMarkdown : String) : Option String :=
  match firstThreeStages stageName wikiMarkdown with
  | some r => some r
  | none => birthStage (jsToLowerStr stageName) wikiMarkdown

/-! ### The search orchestrator (`serve` handler of `ascap-search/index.ts`) -/

/-- What one render request against the scraping provider returns. -/
structure ScrapeOut where
  markdown : String
  html : String
  js : List JsItem

/-- Oracle for the external network: the rendered content each possible fetch of one
request would return. -/
structure FetchEnv where
  wikiMarkdown : String
  ascapWriter : ScrapeOut
  bmiWriter : ScrapeOut
  ascapPublisher : ScrapeOut
  bmiPublisher : ScrapeOut

/-- Trace of which network fetches the handler performs. -/
inductive NetCall where
  | wikipedia
  | ascapWriterSearch
  | bmiWriterSearch
  | ascapPublisherSearch
  | bmiPublisherSearch
deriving Repr, DecidableEq

/-- The parsed JSON request body (`{query, searchType}`); absent fields are `none`. -/
structure ReqBody where
  query : Option String
  searchType : Option String

/-- The handler's response envelope plus its network-call trace. -/
structure HandlerOutcome where
  status : Nat
  success : Bool
  results : List SearchResult
  realName : Option String
  sourceTag : Option String
  error : Option String
  calls : List NetCall
deriving Repr, DecidableEq

/-- JavaScript truthiness of an optional string (`!query`). -/
def jsFalsy : Option String → Bool
  | none => true
  | some s => s == ""

/-- The `serve` handler: empty-query guard, credential guard, then the performer /
writer / publisher branches.  Fetches are read from the oracle; the trace records
which ones are issued. -/
def handleSearch (body : ReqBody) (firecrawlKey : Option String) (fe : FetchEnv) :
    HandlerOutcome :=
  if jsFalsy body.query then
    ⟨400, false, [], none, none, some "Query is required", []⟩
  else
    match firecrawlKey with
    | none => ⟨500, false, [], none, none, some "Firecrawl not configured", []⟩
    | some _ =>
      let q := body.query.getD ""
      if body.searchType == some "performer" then
        let rn := extractRealNameFromWikipedia q fe.wikiMarkdown
        ⟨200, true, [], rn, if rn.isSome then some "wikipedia" else none, none,
         [.wikipedia]⟩
      else if body.searchType == some "writer" then
        let a := parseASCAPResults fe.ascapWriter.markdown fe.ascapWriter.html "writer"
          fe.ascapWriter.js
        let b := parseBMIResults fe.bmiWriter.markdown fe.bmiWriter.html "writer"
          fe.bmiWriter.js
        ⟨200, true, a ++ b, none, none, none, [.ascapWriterSearch, .bmiWriterSearch]⟩
      else if body.searchType == some "publisher" then
        let a := parseASCAPResults fe.ascapPublisher.markdown fe.ascapPublisher.html
          "publisher" fe.ascapPublisher.js
        let b := parseBMIResults fe.bmiPublisher.markdown fe.bmiPublisher.html
          "publisher" fe.bmiPublisher.js
        ⟨200, true, a ++ b, none, none, none,
         [.ascapPublisherSearch, .bmiPublisherSearch]⟩
      else ⟨200, true, [], none, none, none, []⟩

/-! ### The split-sheet notifier (`send-splitsheet/index.ts`)

The HTML body rendered per recipient (`generateSplitSheetHTML`) is presentation only;
the model records, per dispatched email, the address, subject and name substituted
into the greeting. -/

/-- Nested publisher of a writer. -/
structure SplitPublisher where
  name : String
  email : String
  pro : String
  ipiNumber : String
  share : Float

/-- A writer entry of the split-sheet request. -/
structure SplitWriter where
  fullName : String
  email : String
  pro : String
  ipiNumber : String
  role : String
  share : Float
  publisher : Option SplitPublisher

/-- Song metadata of the split-sheet request. -/
structure SplitSongInfo where
  title : String
  artistName : String
  albumTitle : String
  releaseDate : String
  isrcCode : String

/-- A collected recipient (email plus greeting name). -/
structure Recipient where
  email : String
  name : String
deriving Repr, DecidableEq

/-- One dispatched email. -/
structure OutEmail where
  toAddr : String
  subject : String
  greetingName : String
deriving Repr, DecidableEq

/-- The notifier's response: HTTP status, reported `sent` count, error, and the
emails actually dispatched. -/
structure SendOutcome where
  status : Nat
  sent : Option Nat
  error : Option String
  emails : List OutEmail
deriving Repr, DecidableEq

/-- The recipient-collection loop: every writer with a (truthy) email, and every
nested publisher with a (truthy) email, in writer order. -/
def collectRecipients (writers : List SplitWriter) : List Recipient :=
  writers.foldl (fun acc w =>
    let acc1 :=
      if w.email != "" then
        acc ++ [⟨w.email, if w.fullName != "" then w.fullName else "Writer"⟩]
      else acc
    match w.publisher with
    | some p =>
      if p.email != "" then
        acc1 ++ [⟨p.email, if p.name != "" then p.name else "Publisher"⟩]
      else acc1
    | none => acc1) []

/-- The notifier handler: 400 error when no recipient has an email, otherwise one
email per recipient and `sent` = number of recipients. -/
def handleSendSplitSheet (songInfo : SplitSongInfo) (writers : List SplitWriter) :
    SendOutcome :=
  let recipients := collectRecipients writers
  if recipients.length == 0 then
    ⟨400, none, some "No recipients with email addresses found", []⟩
  else
    let emails := recipients.map (fun r =>
      (⟨r.email, "Split Sheet for Review: \"" ++ songInfo.title ++ "\"", r.name⟩ :
        OutEmail))
    ⟨200, some emails.length, none, emails⟩

/-! ### CSV export (`src/lib/export.ts`) -/

/-- A saved record row (`SavedIPI` of `useSavedIPIs.ts`). -/
structure SavedIPI where
  id : String
  name : String
  ipi_number : String
  type : String
  created_at : String

/-- `exportToCSV` of the source.  `dateToISO` stands for the JavaScript built-in
`x => new Date(x).toISOString()` (an external runtime facility). -/
def exportToCSV (dateToISO : String → String) (data : List SavedIPI) : String :=
  let headers := ["Name", "IPI Number", "Type", "Date Saved"]
  let rows := data.map (fun it => [it.name, it.ipi_number, it.type, dateToISO it.created_at])
  joinWith "\n"
    (joinWith "," headers ::
      rows.map (fun row => joinWith "," (row.map (fun cell => "\"" ++ cell ++ "\""))))

/-! ### Invariants of the extraction stages -/

/-- Invariant threaded through every stage: each record's identifying number is in
`seen`, and no two records share an identifying number. -/
def seenInv (p : List SearchResult × List String) : Prop :=
  (∀ r ∈ p.1, r.ipiNumber ∈ p.2) ∧
  p.1.Pairwise (fun a b => a.ipiNumber ≠ b.ipiNumber)

theorem seenInv_nil : seenInv ([], []) := by
  constructor
  · intro r hr; cases hr
  · exact List.Pairwise.nil

theorem dedupPush_inv {ok : String → String → List String → Bool}
    {mk : String → String → SearchResult}
    (hmk : ∀ n i, (mk n i).ipiNumber = i)
    (hok : ∀ n i seen, ok n i seen = true → i ∉ seen)
    (cands : List (String × String)) (p : List SearchResult × List String)
    (hp : seenInv p) : seenInv (dedupPush ok mk cands p) := by
  induction cands generalizing p with
  | nil => simpa [dedupPush] using hp
  | cons c cs ih =>
    have hstep :
        dedupPush ok mk (c :: cs) p =
        dedupPush ok mk cs
          (if ok c.1 c.2 p.2 then (p.1 ++ [mk c.1 c.2], p.2 ++ [c.2]) else p) := by
      simp [dedupPush]
    rw [hstep]
    by_cases h : ok c.1 c.2 p.2 = true
    · rw [if_pos h]
      apply ih
      constructor
      · intro r hr
        rcases List.mem_append.mp hr with h1 | h1
        · exact List.mem_append.mpr (Or.inl (hp.1 r h1))
        · have : r = mk c.1 c.2 := by simpa using h1
          subst this
          rw [hmk]
          exact List.mem_append.mpr (Or.inr (by simp))
      · rw [List.pairwise_append]
        refine ⟨hp.2, List.pairwise_singleton _ _, ?_⟩
        intro a ha b hb
        have hb' : b = mk c.1 c.2 := by simpa using hb
        subst hb'
        rw [hmk]
        intro hcontra
        exact hok c.1 c.2 p.2 h (hcontra ▸ hp.1 a ha)
    · rw [if_neg h]
      exact ih p hp

theorem dedupPush_all {P : SearchResult → Prop} (ok : String → String → List String → Bool)
    (mk : String → String → SearchResult)
    (hmk : ∀ n i, P (mk n i))
    (cands : List (String × String)) (p : List SearchResult × List String)
    (hp : ∀ r ∈ p.1, P r) : ∀ r ∈ (dedupPush ok mk cands p).1, P r := by
  induction cands generalizing p with
  | nil => simpa [dedupPush] using hp
  | cons c cs ih =>
    have hstep :
        dedupPush ok mk (c :: cs) p =
        dedupPush ok mk cs
          (if ok c.1 c.2 p.2 then (p.1 ++ [mk c.1 c.2], p.2 ++ [c.2]) else p) := by
      simp [dedupPush]
    rw [hstep]
    by_cases h : ok c.1 c.2 p.2 = true
    · rw [if_pos h]
      apply ih
      intro r hr
      rcases List.mem_append.mp hr with h1 | h1
      · exact hp r h1
      · have : r = mk c.1 c.2 := by simpa using h1
        subst this
        exact hmk c.1 c.2
    · rw [if_neg h]
      exact ih p hp

theorem jsOk_notMem (n i : String) (seen : List String) (h : jsOk n i seen = true) :
    i ∉ seen := by
  simp only [jsOk, Bool.and_eq_true, Bool.not_eq_true'] at h
  simpa [List.contains] using h.2

theorem contains_false_notMem {i : String} {seen : List String}
    (h : seen.contains i = false) : i ∉ seen := by
  simpa [List.contains] using h

theorem ascapOkHtml_notMem (n i : String) (seen : List String)
    (h : ascapOkHtml n i seen = true) : i ∉ seen := by
  simp only [ascapOkHtml, Bool.and_eq_true, Bool.not_eq_true'] at h
  exact contains_false_notMem h.1.1.1

theorem ascapOkMd_notMem (n i : String) (seen : List String)
    (h : ascapOkMd n i seen = true) : i ∉ seen := by
  simp only [ascapOkMd, Bool.and_eq_true, Bool.not_eq_true'] at h
  exact contains_false_notMem h.1.1

theorem ascapOkTable_notMem (n i : String) (seen : List String)
    (h : ascapOkTable n i seen = true) : i ∉ seen := by
  simp only [ascapOkTable, Bool.and_eq_true, Bool.not_eq_true'] at h
  exact contains_false_notMem h.1.1.1.1

theorem fallbackOk_notMem (n i : String) (seen : List String)
    (h : fallbackOk n i seen = true) : i ∉ seen := by
  simp only [fallbackOk, Bool.not_eq_true'] at h
  exact contains_false_notMem h

theorem bmiOkIpi_notMem (n i : String) (seen : List String)
    (h : bmiOkIpi n i seen = true) : i ∉ seen := by
  simp only [bmiOkIpi, Bool.and_eq_true, Bool.not_eq_true'] at h
  exact contains_false_notMem h.1.1.1

theorem bmiOkTable_notMem (n i : String) (seen : List String)
    (h : bmiOkTable n i seen = true) : i ∉ seen := by
  simp only [bmiOkTable, Bool.and_eq_true, Bool.not_eq_true'] at h
  exact contains_false_notMem h.1.1.1.1

theorem parseASCAP_inv (markdown html searchType : String) (js : List JsItem) :
    (parseASCAPResults markdown html searchType js).Pairwise
      (fun a b => a.ipiNumber ≠ b.ipiNumber) ∧
    ∀ r ∈ parseASCAPResults markdown html searchType js, r.pro = "ASCAP" := by
  have hmk : ∀ n i, (ascapMk searchType n i).ipiNumber = i := fun _ _ => rfl
  have hpro : ∀ n i, (ascapMk searchType n i).pro = "ASCAP" := fun _ _ => rfl
  have h1 : seenInv (scriptStage (ascapMk searchType) js) :=
    dedupPush_inv hmk jsOk_notMem _ _ seenInv_nil
  have h1p : ∀ r ∈ (scriptStage (ascapMk searchType) js).1, r.pro = "ASCAP" :=
    dedupPush_all jsOk _ hpro _ _ (by intro r hr; cases hr)
  rw [parseASCAPResults]
  by_cases hc : 0 < (scriptStage (ascapMk searchType) js).1.length
  · rw [if_pos hc]
    exact ⟨h1.2.sublist (List.take_sublist _ _),
      fun r hr => h1p r (List.take_subset _ _ hr)⟩
  · rw [if_neg hc]
    dsimp only
    have h2 := dedupPush_inv hmk ascapOkHtml_notMem
      (trimCands (matchPairs true reHtmlRow html)) _ h1
    have h3 := dedupPush_inv hmk ascapOkMd_notMem
      (trimCands (matchPairs false reMdNameIpi markdown)) _ h2
    have h4 := dedupPush_inv hmk ascapOkTable_notMem
      (trimCands (matchPairs false reMdTable markdown)) _ h3
    have h2p := dedupPush_all ascapOkHtml _ hpro (trimCands (matchPairs true reHtmlRow html)) _ h1p
    have h3p := dedupPush_all ascapOkMd _ hpro (trimCands (matchPairs false reMdNameIpi markdown)) _ h2p
    have h4p := dedupPush_all ascapOkTable _ hpro (trimCands (matchPairs false reMdTable markdown)) _ h3p
    set s4 := dedupPush ascapOkTable (ascapMk searchType)
      (trimCands (matchPairs false reMdTable markdown))
      (dedupPush ascapOkMd (ascapMk searchType)
        (trimCands (matchPairs false reMdNameIpi markdown))
        (dedupPush ascapOkHtml (ascapMk searchType)
          (trimCands (matchPairs true reHtmlRow html))
          (scriptStage (ascapMk searchType) js))) with hs4
    by_cases hf : s4.1.length == 0
    · rw [if_pos hf]
      have h5 := dedupPush_inv hmk fallbackOk_notMem (fallbackCands markdown) _ h4
      have h5p := dedupPush_all fallbackOk _ hpro (fallbackCands markdown) _ h4p
      exact ⟨h5.2.sublist (List.take_sublist _ _),
        fun r hr => h5p r (List.take_subset _ _ hr)⟩
    · rw [if_neg hf]
      exact ⟨h4.2.sublist (List.take_sublist _ _),
        fun r hr => h4p r (List.take_subset _ _ hr)⟩

theorem parseBMI_inv (markdown html searchType : String) (js : List JsItem) :
    (parseBMIResults markdown html searchType js).Pairwise
      (fun a b => a.ipiNumber ≠ b.ipiNumber) ∧
    ∀ r ∈ parseBMIResults markdown html searchType js, r.pro = "BMI" := by
  have hmk : ∀ n i, (bmiMk searchType n i).ipiNumber = i := fun _ _ => rfl
  have hpro : ∀ n i, (bmiMk searchType n i).pro = "BMI" := fun _ _ => rfl
  have h1 : seenInv (scriptStage (bmiMk searchType) js) :=
    dedupPush_inv hmk jsOk_notMem _ _ seenInv_nil
  have h1p : ∀ r ∈ (scriptStage (bmiMk searchType) js).1, r.pro = "BMI" :=
    dedupPush_all jsOk _ hpro _ _ (by intro r hr; cases hr)
  rw [parseBMIResults]
  by_cases hc : 0 < (scriptStage (bmiMk searchType) js).1.length
  · rw [if_pos hc]
    exact ⟨h1.2.sublist (List.take_sublist _ _),
      fun r hr => h1p r (List.take_subset _ _ hr)⟩
  · rw [if_neg hc]
    dsimp only
    have h2 := dedupPush_inv hmk bmiOkIpi_notMem
      (trimCands (matchPairs true reBmiIpi markdown)) _ h1
    have h3 := dedupPush_inv hmk bmiOkTable_notMem
      (trimCands (matchPairs false reMdTable markdown)) _ h2
    have h2p := dedupPush_all bmiOkIpi _ hpro (trimCands (matchPairs true reBmiIpi markdown)) _ h1p
    have h3p := dedupPush_all bmiOkTable _ hpro (trimCands (matchPairs false reMdTable markdown)) _ h2p
    exact ⟨h3.2.sublist (List.take_sublist _ _),
      fun r hr => h3p r (List.take_subset _ _ hr)⟩

set_option maxRecDepth 1000000
set_option maxHeartbeats 1000000

/-- C1: for every call to the pattern extraction engine (`parseASCAPResults` or
`parseBMIResults`), over any markdown, html, category and script-extracted list, the
returned list contains no two records with the same `ipiNumber`; every record of one
call carries the same source tag (`pro`), so no two records share the same
`(source, identifyingNumber)` pair. -/
theorem extraction_no_duplicate_identifying_numbers
    (markdown html searchType : String) (jsExtracted : List JsItem) :
    ((parseASCAPResults markdown html searchType jsExtracted).Pairwise
        (fun a b => a.ipiNumber ≠ b.ipiNumber) ∧
      (∀ r ∈ parseASCAPResults markdown html searchType jsExtracted, r.pro = "ASCAP") ∧
      (parseASCAPResults markdown html searchType jsExtracted).Pairwise
        (fun a b => (a.pro, a.ipiNumber) ≠ (b.pro, b.ipiNumber))) ∧
    ((parseBMIResults markdown html searchType jsExtracted).Pairwise
        (fun a b => a.ipiNumber ≠ b.ipiNumber) ∧
      (∀ r ∈ parseBMIResults markdown html searchType jsExtracted, r.pro = "BMI") ∧
      (parseBMIResults markdown html searchType jsExtracted).Pairwise
        (fun a b => (a.pro, a.ipiNumber) ≠ (b.pro, b.ipiNumber))) := by
  have ha := parseASCAP_inv markdown html searchType jsExtracted
  have hb := parseBMI_inv markdown html searchType jsExtracted
  refine ⟨⟨ha.1, ha.2, ?_⟩, ⟨hb.1, hb.2, ?_⟩⟩
  · exact ha.1.imp (fun h hp => h (congrArg Prod.snd hp))
  · exact hb.1.imp (fun h hp => h (congrArg Prod.snd hp))

/-- Witness for C1 at a concrete input. -/
theorem extraction_no_duplicate_identifying_numbers_witness :
    (parseASCAPResults "" "" "writer"
        [⟨"John Smith", "123456789"⟩, ⟨"Jane Doe", "123456789"⟩]).Pairwise
      (fun a b => a.ipiNumber ≠ b.ipiNumber) :=
  (extraction_no_duplicate_identifying_numbers "" "" "writer"
    [⟨"John Smith", "123456789"⟩, ⟨"Jane Doe", "123456789"⟩]).1.1

/-- C2: the pattern extraction engine always returns at most 50 records, regardless
of the input. -/
theorem extraction_capped_at_50 (markdown html searchType : String)
    (jsExtracted : List JsItem) :
    (parseASCAPResults markdown html searchType jsExtracted).length ≤ 50 ∧
    (parseBMIResults markdown html searchType jsExtracted).length ≤ 50 := by
  constructor
  · rw [parseASCAPResults]
    dsimp only
    split
    · exact List.length_take_le 50 _
    · exact List.length_take_le 50 _
  · rw [parseBMIResults]
    dsimp only
    split
    · exact List.length_take_le 50 _
    · exact List.length_take_le 50 _

/-- Witness for C2 at a concrete input. -/
theorem extraction_capped_at_50_witness :
    (parseASCAPResults "" "" "writer" [⟨"John Smith", "123456789"⟩]).length ≤ 50 :=
  (extraction_capped_at_50 "" "" "writer" [⟨"John Smith", "123456789"⟩]).1

theorem dedupPush_fst_ne_nil {ok : String → String → List String → Bool}
    {mk : String → String → SearchResult} {cands : List (String × String)}
    {p : List SearchResult × List String}
    (h : p.1 ≠ []) : (dedupPush ok mk cands p).1 ≠ [] := by
  induction cands generalizing p with
  | nil => simpa [dedupPush] using h
  | cons c cs ih =>
    have hstep :
        dedupPush ok mk (c :: cs) p =
        dedupPush ok mk cs
          (if ok c.1 c.2 p.2 then (p.1 ++ [mk c.1 c.2], p.2 ++ [c.2]) else p) := by
      simp [dedupPush]
    rw [hstep]
    by_cases hok : ok c.1 c.2 p.2 = true
    · rw [if_pos hok]
      exact ih (by simp)
    · rw [if_neg hok]
      exact ih h

theorem scriptStage_ne_nil (mk : String → String → SearchResult) (js : List JsItem)
    (h : ∃ it ∈ js, it.ipi ≠ "" ∧ it.name ≠ "") :
    (scriptStage mk js).1 ≠ [] := by
  induction js with
  | nil =>
    rcases h with ⟨it, hit, _⟩
    cases hit
  | cons it its ih =>
    have hstep :
        scriptStage mk (it :: its) =
        dedupPush jsOk mk (its.map fun x => (x.name, x.ipi))
          (if jsOk it.name it.ipi [] then ([mk it.name it.ipi], [it.ipi]) else ([], [])) := by
      simp [scriptStage, dedupPush]
    by_cases hok : jsOk it.name it.ipi [] = true
    · rw [hstep, if_pos hok]
      exact dedupPush_fst_ne_nil (by simp)
    · rw [hstep, if_neg hok]
      rcases h with ⟨g, hg, hgood⟩
      rcases List.mem_cons.mp hg with rfl | hmem
      · exact absurd (by simp [jsOk, bne_iff_ne, hgood.1, hgood.2]) hok
      · simpa [scriptStage] using ih ⟨g, hmem, hgood⟩

/-- C3 counterexample: a non-empty script-extracted list whose sole entry has an
empty name is filtered out, and the engine falls through to the markdown stages and
returns a record that does not come from the script-extracted list. -/
theorem script_short_circuit_cex :
    (([⟨"", "987654321"⟩] : List JsItem) ≠ []) ∧
    parseBMIResults "Abc IPI: 123456789" "" "writer" [⟨"", "987654321"⟩] =
      [⟨"Abc", "123456789", "writer", "BMI"⟩] ∧
    "123456789" ∉ ([⟨"", "987654321"⟩] : List JsItem).map JsItem.ipi :=
  ⟨by decide, by decide, by decide⟩

/-- C3 amended: whenever the script-extracted list contains at least one entry with a
non-empty name and a non-empty identifying number (so that stage 1 yields at least
one record), both parsers return the stage-1 records (capped at 50) immediately, and
the result is independent of the markdown and html inputs — stages 2–4 are never
consulted. -/
theorem script_stage_short_circuit (markdown html searchType : String)
    (js : List JsItem) (h : ∃ it ∈ js, it.ipi ≠ "" ∧ it.name ≠ "") :
    parseASCAPResults markdown html searchType js =
      (scriptStage (ascapMk searchType) js).1.take 50 ∧
    parseASCAPResults markdown html searchType js =
      parseASCAPResults "" "" searchType js ∧
    parseBMIResults markdown html searchType js =
      (scriptStage (bmiMk searchType) js).1.take 50 ∧
    parseBMIResults markdown html searchType js =
      parseBMIResults "" "" searchType js := by
  have ha' : 0 < (scriptStage (ascapMk searchType) js).1.length :=
    List.length_pos.mpr (scriptStage_ne_nil (ascapMk searchType) js h)
  have hb' : 0 < (scriptStage (bmiMk searchType) js).1.length :=
    List.length_pos.mpr (scriptStage_ne_nil (bmiMk searchType) js h)
  refine ⟨?_, ?_, ?_, ?_⟩
  · rw [parseASCAPResults, if_pos ha']
  · simp only [parseASCAPResults]
    rw [if_pos ha', if_pos ha']
  · rw [parseBMIResults, if_pos hb']
  · simp only [parseBMIResults]
    rw [if_pos hb', if_pos hb']

/-- Witness for C3 (amended) at a concrete input. -/
theorem script_stage_short_circuit_witness :
    parseASCAPResults "irrelevant markdown" "irrelevant html" "writer"
        [⟨"Ab", "123456789"⟩] =
      parseASCAPResults "" "" "writer" [⟨"Ab", "123456789"⟩] :=
  (script_stage_short_circuit "irrelevant markdown" "irrelevant html" "writer"
    [⟨"Ab", "123456789"⟩] ⟨⟨"Ab", "123456789"⟩, by decide, by decide, by decide⟩).2.1

/-! ### Resolver validation facts -/

theorem validStrict_spec {snl nm : String} (h : validStrict snl nm = true) :
    2 ≤ numTokens nm ∧ containsSubStr (jsToLowerStr nm) snl = false ∧
    5 < nm.length ∧ nm.length < 60 := by
  simp only [validStrict, Bool.and_eq_true, Bool.not_eq_true', decide_eq_true_eq] at h
  exact ⟨h.1.1.1, h.1.1.2, h.1.2, h.2⟩

theorem validBirth_spec {snl nm : String} (h : validBirth snl nm = true) :
    2 ≤ numTokens nm ∧ containsSubStr (jsToLowerStr nm) snl = false := by
  simp only [validBirth, Bool.and_eq_true, Bool.not_eq_true', decide_eq_true_eq] at h
  exact h

theorem tryPattern_valid {ci : Bool} {re : RE} {cleanup : String → String}
    {valid : String → Bool} {input nm : String}
    (h : tryPattern ci re cleanup valid input = some nm) : valid nm = true := by
  simp only [tryPattern] at h
  split at h
  · cases h
  · split at h
    · cases h
    · split at h
      · cases h
        assumption
      · cases h

theorem tableStage_valid {snl md nm : String} (h : tableStage snl md = some nm) :
    validStrict snl nm = true := by
  simp only [tableStage] at h
  split at h
  · cases h
    exact tryPattern_valid (by assumption)
  · exact tryPattern_valid h

theorem bornStage_valid {snl md nm : String} (h : bornStage snl md = some nm) :
    validStrict snl nm = true := by
  simp only [bornStage] at h
  split at h
  · cases h
    exact tryPattern_valid (by assumption)
  · exact tryPattern_valid h

theorem introStage_valid {stageName snl md nm : String}
    (h : introStage stageName snl md = some nm) : validStrict snl nm = true := by
  simp only [introStage] at h
  split at h
  · cases h
    exact tryPattern_valid (by assumption)
  · exact tryPattern_valid h

theorem birthStage_valid {snl md nm : String} (h : birthStage snl md = some nm) :
    validBirth snl nm = true :=
  tryPattern_valid h

theorem firstThreeStages_valid {stageName md nm : String}
    (h : firstThreeStages stageName md = some nm) :
    validStrict (jsToLowerStr stageName) nm = true := by
  simp only [firstThreeStages] at h
  split at h
  · cases h
    exact tableStage_valid (by assumption)
  · split at h
    · cases h
      exact bornStage_valid (by assumption)
    · exact introStage_valid h

theorem extract_valid {stageName md nm : String}
    (h : extractRealNameFromWikipedia stageName md = some nm) :
    validStrict (jsToLowerStr stageName) nm = true ∨
    validBirth (jsToLowerStr stageName) nm = true := by
  simp only [extractRealNameFromWikipedia] at h
  split at h
  · cases h
    exact Or.inl (firstThreeStages_valid (by assumption))
  · exact Or.inr (birthStage_valid h)

/-- C5: a non-null result of the Real-Name Resolver never contains the queried stage
name as a case-insensitive substring, for every stage name and markdown input. -/
theorem resolver_never_contains_stage_name (stageName md nm : String)
    (h : extractRealNameFromWikipedia stageName md = some nm) :
    containsSubStr (jsToLowerStr nm) (jsToLowerStr stageName) = false := by
  rcases extract_valid h with hv | hv
  · exact (validStrict_spec hv).2.1
  · exact (validBirth_spec hv).2

/-- Witness for C5 at a concrete input. -/
theorem resolver_never_contains_stage_name_witness :
    containsSubStr (jsToLowerStr "Abcd Efgh") (jsToLowerStr "Zz") = false :=
  resolver_never_contains_stage_name "Zz" "| Born | Abcd Efgh<br>" "Abcd Efgh"
    (by decide)

/-- C4 counterexample: the birth-name stage enforces no length bounds, so the
resolver can return a candidate of length 4 — the claimed `5 < length < 60` fails. -/
theorem resolver_candidate_shape_cex :
    extractRealNameFromWikipedia "Qq" "birth name: Ab A" = some "Ab A" ∧
    ¬(5 < ("Ab A" : String).length ∧ ("Ab A" : String).length < 60) :=
  ⟨by decide, by decide⟩

/-- C4 amended: every non-null resolver result splits into at least two
whitespace-separated tokens; results produced by the first three stage groups
(table, born, intro patterns) additionally have length strictly between 5 and 60,
but the final birth-name stage does not enforce the length bounds. -/
theorem resolver_candidate_shape :
    (∀ stageName md nm, extractRealNameFromWikipedia stageName md = some nm →
      2 ≤ numTokens nm) ∧
    (∀ stageName md nm, firstThreeStages stageName md = some nm →
      2 ≤ numTokens nm ∧ 5 < nm.length ∧ nm.length < 60) := by
  constructor
  · intro stageName md nm h
    rcases extract_valid h with hv | hv
    · exact (validStrict_spec hv).1
    · exact (validBirth_spec hv).1
  · intro stageName md nm h
    have hv := validStrict_spec (firstThreeStages_valid h)
    exact ⟨hv.1, hv.2.2⟩

/-- Witness for C4 (amended) at concrete inputs. -/
theorem resolver_candidate_shape_witness :
    2 ≤ numTokens "Ab A" ∧
    (5 < ("Abcd Efgh" : String).length ∧ ("Abcd Efgh" : String).length < 60) :=
  ⟨resolver_candidate_shape.1 "Qq" "birth name: Ab A" "Ab A" (by decide),
   (resolver_candidate_shape.2 "Zz" "| Born | Abcd Efgh<br>" "Abcd Efgh"
     (by decide)).2⟩

/-! ### Orchestrator claims -/

/-- A scrape result with no content. -/
def blankScrape : ScrapeOut := ⟨"", "", []⟩

/-- Fetch oracle for the end-to-end performer test: the resolver stub returns the
infobox row for Snoop Dogg. -/
def snoopFetchEnv : FetchEnv :=
  ⟨"| Born | Calvin Cordozar Broadus Jr.<br>", blankScrape, blankScrape, blankScrape,
   blankScrape⟩

/-- C6: with the rendering credential configured, every performer query returns
`success = true`, an empty result list, and `realName` equal to the resolver's output
(possibly null); the only network call is the encyclopedia fetch — the writer
adapters are never queried.  In particular the Snoop Dogg stub yields
`realName = "Calvin Cordozar Broadus Jr."` and `results = []`. -/
theorem performer_search_returns_name_only :
    (∀ (q key : String) (fe : FetchEnv), q ≠ "" →
      handleSearch ⟨some q, some "performer"⟩ (some key) fe =
        ⟨200, true, [], extractRealNameFromWikipedia q fe.wikiMarkdown,
         if (extractRealNameFromWikipedia q fe.wikiMarkdown).isSome then some "wikipedia"
         else none, none, [NetCall.wikipedia]⟩) ∧
    handleSearch ⟨some "Snoop Dogg", some "performer"⟩ (some "key") snoopFetchEnv =
      ⟨200, true, [], some "Calvin Cordozar Broadus Jr.", some "wikipedia", none,
       [NetCall.wikipedia]⟩ := by
  constructor
  · intro q key fe hq
    simp [handleSearch, jsFalsy, hq]
  · decide

/-- Witness for C6 at the concrete stub. -/
theorem performer_search_returns_name_only_witness :
    handleSearch ⟨some "Snoop Dogg", some "performer"⟩ (some "k") snoopFetchEnv =
      ⟨200, true, [],
       extractRealNameFromWikipedia "Snoop Dogg" snoopFetchEnv.wikiMarkdown,
       if (extractRealNameFromWikipedia "Snoop Dogg" snoopFetchEnv.wikiMarkdown).isSome
       then some "wikipedia" else none, none, [NetCall.wikipedia]⟩ :=
  performer_search_returns_name_only.1 "Snoop Dogg" "k" snoopFetchEnv (by decide)

/-- C10: a missing or empty query is rejected with status 400 and
`{success: false, error: 'Query is required'}`, for every credential state and every
fetch oracle, with no network call issued. -/
theorem empty_query_rejected (body : ReqBody) (key : Option String) (fe : FetchEnv)
    (h : jsFalsy body.query = true) :
    handleSearch body key fe =
      ⟨400, false, [], none, none, some "Query is required", []⟩ := by
  simp [handleSearch, h]

/-- Witness for C10 at a concrete request. -/
theorem empty_query_rejected_witness :
    handleSearch ⟨some "", some "writer"⟩ none snoopFetchEnv =
      ⟨400, false, [], none, none, some "Query is required", []⟩ :=
  empty_query_rejected ⟨some "", some "writer"⟩ none snoopFetchEnv (by decide)

/-! ### Split-sheet notifier claims -/

/-- The recipients contributed by a single writer entry. -/
def recipientsOf (w : SplitWriter) : List Recipient :=
  (if w.email != "" then
    [⟨w.email, if w.fullName != "" then w.fullName else "Writer"⟩]
   else []) ++
  (match w.publisher with
   | some p =>
     if p.email != "" then
       [⟨p.email, if p.name != "" then p.name else "Publisher"⟩]
     else []
   | none => [])

theorem collectRecipients_eq (writers : List SplitWriter) :
    collectRecipients writers = (writers.map recipientsOf).flatten := by
  suffices h : ∀ acc, writers.foldl (fun acc w =>
      let acc1 :=
        if w.email != "" then
          acc ++ [⟨w.email, if w.fullName != "" then w.fullName else "Writer"⟩]
        else acc
      match w.publisher with
      | some p =>
        if p.email != "" then
          acc1 ++ [⟨p.email, if p.name != "" then p.name else "Publisher"⟩]
        else acc1
      | none => acc1) acc = acc ++ (writers.map recipientsOf).flatten by
    simpa [collectRecipients] using h []
  induction writers with
  | nil => intro acc; simp
  | cons w ws ih =>
    intro acc
    rw [List.foldl_cons, ih]
    have hstep : (let acc1 :=
        if w.email != "" then
          acc ++ [⟨w.email, if w.fullName != "" then w.fullName else "Writer"⟩]
        else acc
      match w.publisher with
      | some p =>
        if p.email != "" then
          acc1 ++ [⟨p.email, if p.name != "" then p.name else "Publisher"⟩]
        else acc1
      | none => acc1) = acc ++ recipientsOf w := by
      cases hp : w.publisher with
      | none =>
        by_cases he : (w.email != "") = true <;> simp [recipientsOf, hp, he]
      | some p =>
        by_cases he : (w.email != "") = true <;>
          by_cases hpe : (p.email != "") = true <;>
            simp [recipientsOf, hp, he, hpe]
    rw [hstep]
    simp [List.append_assoc]

theorem mem_recipientsOf_email (w : SplitWriter) (e : String) :
    (∃ r ∈ recipientsOf w, r.email = e) ↔
      ((w.email = e ∧ e ≠ "") ∨ ∃ p, w.publisher = some p ∧ p.email = e ∧ e ≠ "") := by
  cases hp : w.publisher with
  | none =>
    by_cases he : w.email = ""
    · simp [recipientsOf, hp, he, eq_comm]
    · simp only [recipientsOf, hp, bne_iff_ne, ne_eq, he, not_false_eq_true, if_true,
        List.append_nil, List.mem_singleton]
      constructor
      · rintro ⟨r, rfl, hr⟩
        exact Or.inl ⟨hr, fun h0 => he (hr.trans h0)⟩
      · rintro (⟨h1, _⟩ | ⟨p, hp2, _⟩)
        · exact ⟨_, rfl, h1⟩
        · cases hp2
  | some p =>
    by_cases he : w.email = "" <;> by_cases hpe : p.email = ""
    · simp [recipientsOf, hp, he, hpe, eq_comm]
    · simp only [recipientsOf, hp, bne_iff_ne, ne_eq, he, hpe, not_false_eq_true,
        if_true, not_true_eq_false, if_false, List.nil_append, List.mem_singleton]
      constructor
      · rintro ⟨r, rfl, hr⟩
        exact Or.inr ⟨p, rfl, hr, fun h0 => hpe (hr.trans h0)⟩
      · rintro (⟨h1, h2⟩ | ⟨p', hp2, h3, h4⟩)
        · exact absurd h1.symm h2
        · cases hp2
          exact ⟨_, rfl, h3⟩
    · simp only [recipientsOf, hp, bne_iff_ne, ne_eq, he, hpe, not_false_eq_true,
        if_true, not_true_eq_false, if_false, List.append_nil, List.mem_singleton]
      constructor
      · rintro ⟨r, rfl, hr⟩
        exact Or.inl ⟨hr, fun h0 => he (hr.trans h0)⟩
      · rintro (⟨h1, _⟩ | ⟨p', hp2, h3, h4⟩)
        · exact ⟨_, rfl, h1⟩
        · cases hp2
          exact absurd (h3.symm.trans hpe) h4
    · simp only [recipientsOf, hp, bne_iff_ne, ne_eq, he, hpe, not_false_eq_true,
        if_true, List.mem_append, List.mem_singleton]
      constructor
      · rintro ⟨r, hr | hr, he2⟩
        · subst hr
          exact Or.inl ⟨he2, fun h0 => he (he2.trans h0)⟩
        · subst hr
          exact Or.inr ⟨p, rfl, he2, fun h0 => hpe (he2.trans h0)⟩
      · rintro (⟨h1, _⟩ | ⟨p', hp2, h3, _⟩)
        · exact ⟨_, Or.inl rfl, h1⟩
        · cases hp2
          exact ⟨_, Or.inr rfl, h3⟩

/-- C7: the notifier builds its recipient list from every writer email and every
nested-publisher email present (characterised below), dispatches exactly one email
per recipient in that list with the split-sheet subject, reports `sent` equal to the
number of recipients, and when no writer or publisher has an email address it
returns the error envelope and sends nothing. -/
theorem splitsheet_dispatch (songInfo : SplitSongInfo) (writers : List SplitWriter) :
    (handleSendSplitSheet songInfo writers).emails =
      (collectRecipients writers).map (fun r =>
        (⟨r.email, "Split Sheet for Review: \"" ++ songInfo.title ++ "\"", r.name⟩ :
          OutEmail)) ∧
    (handleSendSplitSheet songInfo writers).sent =
      (if (collectRecipients writers).length = 0 then none
       else some (collectRecipients writers).length) ∧
    (handleSendSplitSheet songInfo writers).error =
      (if (collectRecipients writers).length = 0 then
         some "No recipients with email addresses found"
       else none) ∧
    ∀ e : String, (∃ r ∈ collectRecipients writers, r.email = e) ↔
      (∃ w ∈ writers, (w.email = e ∧ e ≠ "") ∨
        ∃ p, w.publisher = some p ∧ p.email = e ∧ e ≠ "") := by
  refine ⟨?_, ?_, ?_, ?_⟩
  · by_cases hz : (collectRecipients writers).length = 0
    · have : collectRecipients writers = [] := List.length_eq_zero.mp hz
      simp [handleSendSplitSheet, this]
    · simp [handleSendSplitSheet, hz]
  · by_cases hz : (collectRecipients writers).length = 0
    · simp [handleSendSplitSheet, hz]
    · simp [handleSendSplitSheet, hz]
  · by_cases hz : (collectRecipients writers).length = 0
    · simp [handleSendSplitSheet, hz]
    · simp [handleSendSplitSheet, hz]
  · intro e
    rw [collectRecipients_eq]
    constructor
    · rintro ⟨r, hr, he⟩
      rcases List.mem_flatten.mp hr with ⟨l, hl, hrl⟩
      rcases List.mem_map.mp hl with ⟨w, hw, rfl⟩
      exact ⟨w, hw, (mem_recipientsOf_email w e).mp ⟨r, hrl, he⟩⟩
    · rintro ⟨w, hw, hcase⟩
      rcases (mem_recipientsOf_email w e).mpr hcase with ⟨r, hr, he⟩
      exact ⟨r, List.mem_flatten.mpr ⟨recipientsOf w, List.mem_map.mpr ⟨w, hw, rfl⟩, hr⟩,
        he⟩

/-- Example writer with both a writer email and a nested publisher email. -/
def splitWriterEx : SplitWriter :=
  ⟨"Jane Writer", "jane@example.com", "ASCAP", "123456789", "Composer", 50.0,
   some ⟨"Pub Co", "pub@example.com", "BMI", "987654321", 50.0⟩⟩

/-- Witness for C7 at a concrete request: two recipients, two emails, `sent = 2`. -/
theorem splitsheet_dispatch_witness :
    (handleSendSplitSheet ⟨"My Song", "", "", "", ""⟩ [splitWriterEx]).sent = some 2 := by
  have h := (splitsheet_dispatch ⟨"My Song", "", "", "", ""⟩ [splitWriterEx]).2.1
  rw [h]
  rfl

/-! ### CSV export claim -/

/-- Concatenation of a list of strings. -/
def strConcat : List String → String
  | [] => ""
  | x :: xs => x ++ strConcat xs

theorem joinWith_cons2 (sep x y : String) (ys : List String) :
    joinWith sep (x :: y :: ys) = x ++ sep ++ joinWith sep (y :: ys) := rfl

theorem joinWith_nl (x : String) (l : List String) :
    joinWith "\n" (x :: l) = x ++ strConcat (l.map (fun y => "\n" ++ y)) := by
  induction l generalizing x with
  | nil => simp [joinWith, strConcat]
  | cons y ys ih =>
    rw [joinWith_cons2, ih y]
    simp [strConcat, String.append_assoc]

/-- C8: CSV export is exactly the header row followed by one quoted row per record in
input order; in particular the Jane Doe single-record instance produces the claimed
two-line output with the ISO rendering of the timestamp in the last cell. -/
theorem csv_export_shape :
    (∀ (dateToISO : String → String) (data : List SavedIPI),
      exportToCSV dateToISO data =
        "Name,IPI Number,Type,Date Saved" ++
          strConcat (data.map (fun it =>
            "\n\"" ++ it.name ++ "\",\"" ++ it.ipi_number ++ "\",\"" ++ it.type ++
            "\",\"" ++ dateToISO it.created_at ++ "\""))) ∧
    (∀ (dateToISO : String → String) (idv T : String),
      exportToCSV dateToISO [⟨idv, "Jane Doe", "123456789", "writer", T⟩] =
        "Name,IPI Number,Type,Date Saved\n\"Jane Doe\",\"123456789\",\"writer\",\"" ++
          dateToISO T ++ "\"") := by
  have hgen : ∀ (dateToISO : String → String) (data : List SavedIPI),
      exportToCSV dateToISO data =
        "Name,IPI Number,Type,Date Saved" ++
          strConcat (data.map (fun it =>
            "\n\"" ++ it.name ++ "\",\"" ++ it.ipi_number ++ "\",\"" ++ it.type ++
            "\",\"" ++ dateToISO it.created_at ++ "\"")) := by
    intro f data
    rw [exportToCSV]
    rw [joinWith_nl, List.map_map, List.map_map]
    refine congrArg (fun t => _ ++ strConcat t) ?_
    refine List.map_congr_left ?_
    intro it _
    simp only [Function.comp, List.map, joinWith, String.append_assoc]
    rfl
  refine ⟨hgen, ?_⟩
  intro f idv T
  rw [hgen]
  simp only [List.map, strConcat, String.append_empty, String.append_assoc]
  rfl

/-- Witness for C8 with the identity ISO renderer and a concrete timestamp. -/
theorem csv_export_shape_witness :
    exportToCSV (fun s => s)
        [⟨"id1", "Jane Doe", "123456789", "writer", "2024-01-01T00:00:00.000Z"⟩] =
      "Name,IPI Number,Type,Date Saved\n\"Jane Doe\",\"123456789\",\"writer\",\"2024-01-01T00:00:00.000Z\"" :=
  (csv_export_shape.2 (fun s => s) "id1" "2024-01-01T00:00:00.000Z").trans rfl

/-! ### Idempotence of `formatName` -/

theorem toNat_ofNat_small {n : Nat} (h : n < 55296) : (Char.ofNat n).toNat = n := by
  rw [Char.ofNat, dif_pos (Or.inl h)]
  rfl

theorem upper_toNat {c : Char} (h : isLowerAZ c = true) :
    (jsToUpperChar c).toNat = c.toNat - 32 := by
  have hlow : 97 ≤ c.toNat ∧ c.toNat ≤ 122 := by simpa [isLowerAZ] using h
  rw [jsToUpperChar, if_pos h]
  exact toNat_ofNat_small (by omega)

theorem lower_toNat {c : Char} (h : isUpperAZ c = true) :
    (jsToLowerChar c).toNat = c.toNat + 32 := by
  have hup : 65 ≤ c.toNat ∧ c.toNat ≤ 90 := by simpa [isUpperAZ] using h
  rw [jsToLowerChar, if_pos h]
  exact toNat_ofNat_small (by omega)

theorem upper_idem (c : Char) : jsToUpperChar (jsToUpperChar c) = jsToUpperChar c := by
  by_cases h : isLowerAZ c = true
  · have hlow : 97 ≤ c.toNat ∧ c.toNat ≤ 122 := by simpa [isLowerAZ] using h
    have ht := upper_toNat h
    have hno : ¬ isLowerAZ (jsToUpperChar c) = true := by
      simp only [isLowerAZ, ht, decide_eq_true_eq]
      omega
    rw [jsToUpperChar, if_neg hno]
  · have h1 : jsToUpperChar c = c := by rw [jsToUpperChar, if_neg h]
    rw [h1, h1]

theorem lower_idem (c : Char) : jsToLowerChar (jsToLowerChar c) = jsToLowerChar c := by
  by_cases h : isUpperAZ c = true
  · have hup : 65 ≤ c.toNat ∧ c.toNat ≤ 90 := by simpa [isUpperAZ] using h
    have ht := lower_toNat h
    have hno : ¬ isUpperAZ (jsToLowerChar c) = true := by
      simp only [isUpperAZ, ht, decide_eq_true_eq]
      omega
    rw [jsToLowerChar, if_neg hno]
  · have h1 : jsToLowerChar c = c := by rw [jsToLowerChar, if_neg h]
    rw [h1, h1]

theorem jsIsSpace_upper (c : Char) : jsIsSpace (jsToUpperChar c) = jsIsSpace c := by
  by_cases h : isLowerAZ c = true
  · have hlow : 97 ≤ c.toNat ∧ c.toNat ≤ 122 := by simpa [isLowerAZ] using h
    have ht := upper_toNat h
    have h1 : jsIsSpace (jsToUpperChar c) = false := by
      simp only [jsIsSpace, ht, decide_eq_false_iff_not]
      omega
    have h2 : jsIsSpace c = false := by
      simp only [jsIsSpace, decide_eq_false_iff_not]
      omega
    rw [h1, h2]
  · rw [jsToUpperChar, if_neg h]

theorem jsIsSpace_lower (c : Char) : jsIsSpace (jsToLowerChar c) = jsIsSpace c := by
  by_cases h : isUpperAZ c = true
  · have hup : 65 ≤ c.toNat ∧ c.toNat ≤ 90 := by simpa [isUpperAZ] using h
    have ht := lower_toNat h
    have h1 : jsIsSpace (jsToLowerChar c) = false := by
      simp only [jsIsSpace, ht, decide_eq_false_iff_not]
      omega
    have h2 : jsIsSpace c = false := by
      simp only [jsIsSpace, decide_eq_false_iff_not]
      omega
    rw [h1, h2]
  · rw [jsToLowerChar, if_neg h]

/-- A word with no whitespace characters. -/
def NoSp (w : List Char) : Prop :=
  ∀ c ∈ w, jsIsSpace c = false

theorem space_of_blank : jsIsSpace ' ' = true := by decide

theorem noSp_ne_blank {w : List Char} (h : NoSp w) {c : Char} (hc : c ∈ w) : c ≠ ' ' :=
  fun h0 => by simpa [h0, space_of_blank] using h c hc

theorem capL_noSp {w : List Char} (h : NoSp w) : NoSp (capL w) := by
  cases w with
  | nil => intro c hc; cases hc
  | cons d r =>
    intro c hc
    rcases List.mem_cons.mp hc with rfl | hc
    · rw [jsIsSpace_upper]
      exact h d (List.mem_cons_self d r)
    · rcases List.mem_map.mp hc with ⟨e, he, rfl⟩
      rw [jsIsSpace_lower]
      exact h e (List.mem_cons_of_mem d he)

theorem capL_idem (w : List Char) : capL (capL w) = capL w := by
  cases w with
  | nil => rfl
  | cons c r =>
    show jsToUpperChar (jsToUpperChar c) :: (r.map jsToLowerChar).map jsToLowerChar =
      jsToUpperChar c :: r.map jsToLowerChar
    rw [upper_idem, List.map_map]
    congr 1
    exact List.map_congr_left (fun x _ => lower_idem x)

theorem capL_ne_nil {w : List Char} (h : w ≠ []) : capL w ≠ [] := by
  cases w with
  | nil => exact absurd rfl h
  | cons c r => exact fun h0 => List.noConfusion h0

theorem splitSp_ne_nil (l : List Char) : splitSp l ≠ [] := by
  cases l with
  | nil => exact fun h => List.noConfusion h
  | cons c rest =>
    rw [splitSp]
    cases splitSp rest with
    | nil => exact fun h => List.noConfusion h
    | cons w ws =>
      dsimp only
      by_cases hc : c = ' '
      · rw [if_pos hc]; exact fun h => List.noConfusion h
      · rw [if_neg hc]; exact fun h => List.noConfusion h

theorem splitSp_chars (t : List Char) :
    ∀ w ∈ splitSp t, ∀ c ∈ w, c ∈ t ∧ c ≠ ' ' := by
  induction t with
  | nil =>
    intro w hw c hc
    have : w = [] := by simpa [splitSp] using hw
    subst this
    cases hc
  | cons d rest ih =>
    intro w hw c hc
    rw [splitSp] at hw
    cases hsp : splitSp rest with
    | nil => exact absurd hsp (splitSp_ne_nil rest)
    | cons w0 ws =>
      rw [hsp] at hw
      dsimp only at hw
      by_cases hd : d = ' '
      · rw [if_pos hd] at hw
        rcases List.mem_cons.mp hw with rfl | hw'
        · cases hc
        · have := ih w (hsp ▸ hw') c hc
          exact ⟨List.mem_cons_of_mem d this.1, this.2⟩
      · rw [if_neg hd] at hw
        rcases List.mem_cons.mp hw with rfl | hw'
        · rcases List.mem_cons.mp hc with rfl | hc'
          · exact ⟨List.mem_cons_self _ _, hd⟩
          · have := ih w0 (hsp ▸ List.mem_cons_self w0 ws) c hc'
            exact ⟨List.mem_cons_of_mem d this.1, this.2⟩
        · have := ih w (hsp ▸ List.mem_cons_of_mem w0 hw') c hc
          exact ⟨List.mem_cons_of_mem d this.1, this.2⟩

theorem collapseAux_space_char :
    ∀ (b : Bool) (l : List Char), ∀ c ∈ collapseAux b l, jsIsSpace c = true → c = ' ' := by
  intro b l
  induction l generalizing b with
  | nil => intro c hc; cases hc
  | cons d rest ih =>
    intro c hc hsp
    rw [collapseAux] at hc
    by_cases hd : jsIsSpace d = true
    · rw [if_pos hd] at hc
      by_cases hb : b = true
      · rw [if_pos hb] at hc
        exact ih true c hc hsp
      · rw [if_neg hb] at hc
        rcases List.mem_cons.mp hc with rfl | hc'
        · rfl
        · exact ih true c hc' hsp
    · rw [if_neg hd] at hc
      rcases List.mem_cons.mp hc with rfl | hc'
      · exact absurd hsp (by simpa using hd)
      · exact ih false c hc' hsp

theorem collapseAux_true_head :
    ∀ (l : List Char) (c : Char), (collapseAux true l).head? = some c →
      jsIsSpace c = false := by
  intro l
  induction l with
  | nil => intro c h; cases h
  | cons d rest ih =>
    intro c h
    rw [collapseAux] at h
    by_cases hd : jsIsSpace d = true
    · rw [if_pos hd, if_pos rfl] at h
      exact ih c h
    · rw [if_neg hd] at h
      cases h
      simpa using hd

theorem collapse_chain (l : List Char) (b : Bool) :
    List.Chain' (fun a c => ¬(jsIsSpace a = true ∧ jsIsSpace c = true))
      (collapseAux b l) := by
  induction l generalizing b with
  | nil => exact List.chain'_nil
  | cons d rest ih =>
    rw [collapseAux]
    by_cases hd : jsIsSpace d = true
    · rw [if_pos hd]
      by_cases hb : b = true
      · rw [if_pos hb]; exact ih true
      · rw [if_neg hb]
        refine List.chain'_cons'.mpr ⟨?_, ih true⟩
        intro e he
        intro hcontra
        have := collapseAux_true_head rest e he
        rw [this] at hcontra
        exact Bool.noConfusion hcontra.2
    · rw [if_neg hd]
      refine List.chain'_cons'.mpr ⟨?_, ih false⟩
      intro e _
      intro hcontra
      exact hd hcontra.1

theorem dropWhile_head_prop (p : Char → Bool) :
    ∀ (l : List Char) (c : Char), (l.dropWhile p).head? = some c → p c = false := by
  intro l
  induction l with
  | nil => intro c h; cases h
  | cons d rest ih =>
    intro c h
    rw [List.dropWhile_cons] at h
    by_cases hd : p d = true
    · rw [if_pos hd] at h
      exact ih c h
    · rw [if_neg hd] at h
      cases h
      simpa using hd

theorem trim_head (l : List Char) (c : Char) (h : (trimL l).head? = some c) :
    jsIsSpace c = false := by
  rw [trimL, List.head?_reverse] at h
  rcases List.dropWhile_suffix (l := (l.dropWhile jsIsSpace).reverse) jsIsSpace with
    ⟨pre, hpre⟩
  have hy : (l.dropWhile jsIsSpace).reverse.dropWhile jsIsSpace ≠ [] := by
    intro h0
    rw [h0] at h
    cases h
  rw [← List.getLast?_append_of_ne_nil pre hy, hpre, List.getLast?_reverse] at h
  exact dropWhile_head_prop jsIsSpace _ c h

theorem trim_last (l : List Char) (c : Char) (h : (trimL l).getLast? = some c) :
    jsIsSpace c = false := by
  rw [trimL, List.getLast?_reverse] at h
  exact dropWhile_head_prop jsIsSpace _ c h

theorem trimWithin (l : List Char) : List.IsInfix (trimL l) l := by
  rcases List.dropWhile_suffix (l := (l.dropWhile jsIsSpace).reverse) jsIsSpace with
    ⟨pre, hpre⟩
  rcases List.dropWhile_suffix (l := l) jsIsSpace with ⟨pre2, hpre2⟩
  refine ⟨pre2, pre.reverse, ?_⟩
  rw [trimL]
  have : ((l.dropWhile jsIsSpace).reverse.dropWhile jsIsSpace).reverse ++ pre.reverse =
      l.dropWhile jsIsSpace := by
    rw [← List.reverse_append, hpre, List.reverse_reverse]
  rw [List.append_assoc, this, hpre2]

theorem splitSp_no_empty :
    ∀ (n : Nat) (t : List Char), t.length ≤ n → t ≠ [] →
      (∀ c, t.head? = some c → c ≠ ' ') →
      (∀ c, t.getLast? = some c → c ≠ ' ') →
      List.Chain' (fun a b => ¬(a = ' ' ∧ b = ' ')) t →
      [] ∉ splitSp t := by
  intro n
  induction n with
  | zero =>
    intro t hlen hne _ _ _
    cases t with
    | nil => exact absurd rfl hne
    | cons c rest => simp at hlen
  | succ n ih =>
    intro t hlen hne hh hl hch
    cases t with
    | nil => exact absurd rfl hne
    | cons c rest =>
      have hc : c ≠ ' ' := hh c rfl
      rw [splitSp]
      cases hsp : splitSp rest with
      | nil => exact absurd hsp (splitSp_ne_nil rest)
      | cons w0 ws =>
        dsimp only
        rw [if_neg hc]
        intro hmem
        rcases List.mem_cons.mp hmem with h0 | h0
        · exact List.noConfusion h0
        · -- [] is among the words of rest
          cases rest with
          | nil =>
            rw [splitSp] at hsp
            cases hsp
            cases h0
          | cons d rest' =>
            by_cases hd : d = ' '
            · -- rest = ' ' :: rest': splitSp rest = [] :: splitSp rest'
              subst hd
              rw [splitSp] at hsp
              cases hsp2 : splitSp rest' with
              | nil => exact absurd hsp2 (splitSp_ne_nil rest')
              | cons v vs =>
                rw [hsp2] at hsp
                dsimp only at hsp
                rw [if_pos rfl] at hsp
                cases hsp
                -- ws = v :: vs = splitSp rest'
                have hrest' : rest' ≠ [] := by
                  intro h1
                  subst h1
                  exact hl ' ' rfl rfl
                have hh' : ∀ e, rest'.head? = some e → e ≠ ' ' := by
                  intro e he
                  have hpair := (List.chain'_cons'.mp hch.tail).1 e he
                  intro h1
                  exact hpair ⟨rfl, h1⟩
                have hl' : ∀ e, rest'.getLast? = some e → e ≠ ' ' := by
                  intro e he
                  apply hl
                  rw [show (c :: ' ' :: rest') = (c :: [' ']) ++ rest' from rfl,
                    List.getLast?_append_of_ne_nil _ hrest']
                  exact he
                have hch' : List.Chain' (fun a b => ¬(a = ' ' ∧ b = ' ')) rest' :=
                  hch.tail.tail
                have hlen' : rest'.length ≤ n := by
                  simp only [List.length_cons] at hlen
                  omega
                have := ih rest' hlen' hrest' hh' hl' hch'
                rw [hsp2] at this
                exact this h0
            · -- rest head not a space: recurse on rest directly
              have hrest : (d :: rest') ≠ [] := fun h1 => List.noConfusion h1
              have hh' : ∀ e, (d :: rest').head? = some e → e ≠ ' ' := by
                intro e he
                cases he
                exact hd
              have hl' : ∀ e, (d :: rest').getLast? = some e → e ≠ ' ' := by
                intro e he
                apply hl
                rw [show (c :: d :: rest') = [c] ++ (d :: rest') from rfl,
                  List.getLast?_append_of_ne_nil _ hrest]
                exact he
              have hlen' : (d :: rest').length ≤ n := by
                simp only [List.length_cons] at hlen ⊢
                omega
              have := ih (d :: rest') hlen' hrest hh' hl' hch.tail
              rw [hsp] at this
              exact this (List.mem_cons_of_mem w0 h0)

theorem joinSp_cons2 (w v : List Char) (ws : List (List Char)) :
    joinSp (w :: v :: ws) = w ++ ' ' :: joinSp (v :: ws) := rfl

theorem joinSp_ne_nil {w : List Char} (hw : w ≠ []) (ws : List (List Char)) :
    joinSp (w :: ws) ≠ [] := by
  cases ws with
  | nil => exact hw
  | cons v ws' =>
    rw [joinSp_cons2]
    cases w with
    | nil => exact absurd rfl hw
    | cons c r => exact fun h => List.noConfusion h

theorem joinSp_head {w : List Char} (hw : w ≠ []) (ws : List (List Char)) :
    (joinSp (w :: ws)).head? = w.head? := by
  cases ws with
  | nil => rfl
  | cons v ws' =>
    rw [joinSp_cons2]
    cases w with
    | nil => exact absurd rfl hw
    | cons c r => rfl

theorem joinSp_last :
    ∀ (ws : List (List Char)), ws ≠ [] → (∀ w ∈ ws, w ≠ [] ∧ NoSp w) →
      ∀ c, (joinSp ws).getLast? = some c → jsIsSpace c = false := by
  intro ws
  induction ws with
  | nil => intro h; exact absurd rfl h
  | cons w ws' ih =>
    intro _ hall c hc
    cases ws' with
    | nil =>
      exact (hall w (List.mem_cons_self _ _)).2 c (List.mem_of_getLast?_eq_some hc)
    | cons v ws'' =>
      rw [joinSp_cons2] at hc
      have hj : joinSp (v :: ws'') ≠ [] :=
        joinSp_ne_nil (hall v (List.mem_cons_of_mem w (List.mem_cons_self _ _))).1 ws''
      rw [List.getLast?_append_of_ne_nil w (fun h => List.noConfusion h)] at hc
      rw [show (' ' :: joinSp (v :: ws'')) = [' '] ++ joinSp (v :: ws'') from rfl,
        List.getLast?_append_of_ne_nil _ hj] at hc
      exact ih (fun h => List.noConfusion h)
        (fun u hu => hall u (List.mem_cons_of_mem w hu)) c hc

theorem collapseAux_noSp_append {w : List Char} (hw : NoSp w) (l : List Char) :
    collapseAux false (w ++ l) = w ++ collapseAux false l := by
  induction w with
  | nil => rfl
  | cons c r ih =>
    have hc : jsIsSpace c = false := hw c (List.mem_cons_self _ _)
    rw [List.cons_append, collapseAux, if_neg (by simp [hc])]
    rw [ih (fun e he => hw e (List.mem_cons_of_mem c he)), List.cons_append]

theorem collapseAux_true_of_head {l : List Char}
    (h : ∀ c, l.head? = some c → jsIsSpace c = false) :
    collapseAux true l = collapseAux false l := by
  cases l with
  | nil => rfl
  | cons c r =>
    have hc : jsIsSpace c = false := h c rfl
    rw [collapseAux, collapseAux, if_neg (by simp [hc]), if_neg (by simp [hc])]

theorem collapse_joinSp :
    ∀ (ws : List (List Char)), ws ≠ [] → (∀ w ∈ ws, w ≠ [] ∧ NoSp w) →
      collapseL (joinSp ws) = joinSp ws := by
  intro ws
  induction ws with
  | nil => intro h; exact absurd rfl h
  | cons w ws' ih =>
    intro _ hall
    cases ws' with
    | nil =>
      show collapseAux false (joinSp [w]) = joinSp [w]
      have : joinSp [w] = w ++ [] := by simp [joinSp]
      rw [this, collapseAux_noSp_append (hall w (List.mem_cons_self _ _)).2]
      rfl
    | cons v ws'' =>
      rw [joinSp_cons2]
      show collapseAux false (w ++ ' ' :: joinSp (v :: ws'')) = _
      rw [collapseAux_noSp_append (hall w (List.mem_cons_self _ _)).2]
      congr 1
      have hvne : v ≠ [] := (hall v (List.mem_cons_of_mem w (List.mem_cons_self _ _))).1
      have hhd : ∀ c, (joinSp (v :: ws'')).head? = some c → jsIsSpace c = false := by
        intro c hc
        rw [joinSp_head hvne] at hc
        exact (hall v (List.mem_cons_of_mem w (List.mem_cons_self _ _))).2 c
          (List.mem_of_mem_head? (Option.mem_def.mpr hc))
      rw [collapseAux, if_pos (show jsIsSpace ' ' = true by decide),
        if_neg (show ¬(false = true) by decide), collapseAux_true_of_head hhd]
      exact congrArg (fun t => ' ' :: t)
        (ih (fun h => List.noConfusion h)
          (fun u hu => hall u (List.mem_cons_of_mem w hu)))

theorem trim_of_clean {l : List Char}
    (hh : ∀ c, l.head? = some c → jsIsSpace c = false)
    (hl : ∀ c, l.getLast? = some c → jsIsSpace c = false) : trimL l = l := by
  have h1 : l.dropWhile jsIsSpace = l := by
    cases l with
    | nil => rfl
    | cons c r => rw [List.dropWhile_cons, if_neg (by simp [hh c rfl])]
  rw [trimL, h1]
  have h2 : l.reverse.dropWhile jsIsSpace = l.reverse := by
    cases hrev : l.reverse with
    | nil => rfl
    | cons c r =>
      have hc : l.getLast? = some c := by
        rw [← List.head?_reverse, hrev]
        rfl
      rw [List.dropWhile_cons, if_neg (by simp [hl c hc])]
  rw [h2, List.reverse_reverse]

theorem trim_joinSp (ws : List (List Char)) (hne : ws ≠ [])
    (hall : ∀ w ∈ ws, w ≠ [] ∧ NoSp w) : trimL (joinSp ws) = joinSp ws := by
  cases ws with
  | nil => exact absurd rfl hne
  | cons w ws' =>
    apply trim_of_clean
    · intro c hc
      rw [joinSp_head (hall w (List.mem_cons_self _ _)).1] at hc
      exact (hall w (List.mem_cons_self _ _)).2 c
        (List.mem_of_mem_head? (Option.mem_def.mpr hc))
    · exact joinSp_last (w :: ws') (fun h => List.noConfusion h) hall

theorem splitSp_append_noSp {w : List Char} (hw : NoSp w) (l : List Char)
    {w0 : List Char} {ws0 : List (List Char)} (hsp : splitSp l = w0 :: ws0) :
    splitSp (w ++ l) = (w ++ w0) :: ws0 := by
  induction w with
  | nil => simpa using hsp
  | cons c r ih =>
    have hc : c ≠ ' ' := noSp_ne_blank hw (List.mem_cons_self _ _)
    rw [List.cons_append, splitSp,
      ih (fun e he => hw e (List.mem_cons_of_mem c he))]
    dsimp only
    rw [if_neg hc]
    rfl

theorem splitSp_joinSp :
    ∀ (ws : List (List Char)), ws ≠ [] → (∀ w ∈ ws, w ≠ [] ∧ NoSp w) →
      splitSp (joinSp ws) = ws := by
  intro ws
  induction ws with
  | nil => intro h; exact absurd rfl h
  | cons w ws' ih =>
    intro _ hall
    cases ws' with
    | nil =>
      have h0 : joinSp [w] = w ++ [] := by simp [joinSp]
      rw [h0, splitSp_append_noSp (hall w (List.mem_cons_self _ _)).2 []
        (show splitSp [] = [[]] from rfl)]
      simp
    | cons v ws'' =>
      rw [joinSp_cons2]
      have hrec := ih (fun h => List.noConfusion h)
        (fun u hu => hall u (List.mem_cons_of_mem w hu))
      have hsp : splitSp (' ' :: joinSp (v :: ws'')) = [] :: v :: ws'' := by
        rw [splitSp]
        cases hsp2 : splitSp (joinSp (v :: ws'')) with
        | nil => exact absurd hsp2 (splitSp_ne_nil _)
        | cons a as =>
          dsimp only
          rw [if_pos rfl]
          rw [hsp2] at hrec
          rw [hrec]
      rw [splitSp_append_noSp (hall w (List.mem_cons_self _ _)).2 _ hsp]
      simp

/-- The two possible shapes of `formatName`'s word list: the degenerate single empty
word (all-whitespace input), or non-empty whitespace-free words. -/
def GoodWords (ws : List (List Char)) : Prop :=
  ws = [[]] ∨ (ws ≠ [] ∧ ∀ w ∈ ws, w ≠ [] ∧ NoSp w)

theorem wordsRaw_good (l : List Char) : GoodWords (splitSp (trimL (collapseL l))) := by
  by_cases ht : trimL (collapseL l) = []
  · left
    rw [ht]
    rfl
  · right
    refine ⟨splitSp_ne_nil _, ?_⟩
    have hh : ∀ c, (trimL (collapseL l)).head? = some c → c ≠ ' ' := by
      intro c hc h1
      have h2 := trim_head _ c hc
      rw [h1] at h2
      exact Bool.noConfusion (space_of_blank.symm.trans h2)
    have hl2 : ∀ c, (trimL (collapseL l)).getLast? = some c → c ≠ ' ' := by
      intro c hc h1
      have h2 := trim_last _ c hc
      rw [h1] at h2
      exact Bool.noConfusion (space_of_blank.symm.trans h2)
    have hch : List.Chain' (fun a b => ¬(a = ' ' ∧ b = ' ')) (trimL (collapseL l)) := by
      have h1 := List.Chain'.infix (collapse_chain l false) (trimWithin (collapseL l))
      exact h1.imp (fun a b hab h2 => hab ⟨by rw [h2.1]; exact space_of_blank,
        by rw [h2.2]; exact space_of_blank⟩)
    intro w hw
    constructor
    · intro h0
      subst h0
      exact splitSp_no_empty (trimL (collapseL l)).length _ le_rfl ht hh hl2 hch hw
    · intro c hc
      have h1 := splitSp_chars _ w hw c hc
      have h2 : c ∈ collapseL l := (trimWithin (collapseL l)).subset h1.1
      by_cases hsp : jsIsSpace c = true
      · exact absurd (collapseAux_space_char false l c h2 hsp) h1.2
      · simpa using hsp

theorem fmtL_idem (l : List Char) : fmtL (fmtL l) = fmtL l := by
  rcases wordsRaw_good l with h | ⟨hne, hall⟩
  · have h2 : fmtL l = [] := by
      rw [fmtL, h]
      rfl
    rw [h2]
    rfl
  · have hne' : (splitSp (trimL (collapseL l))).map capL ≠ [] := by
      simpa using hne
    have hall' : ∀ w ∈ (splitSp (trimL (collapseL l))).map capL, w ≠ [] ∧ NoSp w := by
      intro w hw
      rcases List.mem_map.mp hw with ⟨v, hv, rfl⟩
      exact ⟨capL_ne_nil (hall v hv).1, capL_noSp (hall v hv).2⟩
    show fmtL (joinSp ((splitSp (trimL (collapseL l))).map capL)) = _
    rw [fmtL, collapse_joinSp _ hne' hall', trim_joinSp _ hne' hall',
      splitSp_joinSp _ hne' hall']
    rw [List.map_map]
    exact congrArg joinSp (List.map_congr_left (fun w _ => capL_idem w))

/-- C9: `formatName` is idempotent — formatting an already-formatted name returns
the same string, for every input string. -/
theorem formatName_idempotent (s : String) : formatName (formatName s) = formatName s :=
  congrArg String.mk (fmtL_idem s.data)

/-- Witness for C9 at a concrete input. -/
theorem formatName_idempotent_witness :
    formatName (formatName "  jOHN   mcLEAN  smith ") = formatName "  jOHN   mcLEAN  smith " :=
  formatName_idempotent "  jOHN   mcLEAN  smith "
